import Mathlib

/-!
# Verification of the main-thread-task reconstruction engine

Shallow embedding of `lighthouse-core/gather/computed/main-thread-tasks.js`
and `lighthouse-core/lib/task-groups.js`.

Modelling conventions:
* JS numbers that can be `NaN` are `Option ℚ` (`none` = `NaN`); arithmetic on
  them propagates `none`, and `Number.isFinite x` is `x.isSome`.  Timestamps
  (`event.ts`) are always finite, so they are plain `ℚ`.
* JS objects holding a possibly-`undefined` value are `Option`.
* The mutable task graph is an arena: a `List TaskNode` in creation order,
  with `parent` and `children` stored as indices into that list.  The JS
  `currentTask` cursor together with its chain of `parent` references is the
  stack of still-open tasks, top first; the embedding carries that stack
  explicitly as a `List Nat`, popping exactly where the JS walks
  `currentTask = currentTask.parent`.
* The JS recursive passes (`_computeRecursiveSelfTime`,
  `_computeRecursiveAttributableURL`, `_computeRecursiveTaskGroup`) are
  launched from every root and visit each node exactly once (every node is
  reachable from exactly one root, because `children` membership and `parent`
  pointers are set together, once, at creation).  The value each pass writes
  into a node is a function of construction-time fields only, so the passes
  are embedded as index-wise maps over the arena writing those values;
  parent-chain recursion is guarded by the arena well-formedness fact
  `parent index < child index`, which holds for every arena the
  reconstruction builds (proved below as an invariant).
* The JS source throws `Error` objects; the distinct throw sites are modelled
  by distinct constructors of `TraceError` following the spec's error names
  (the two `'Fatal trace logic error'` sites are `unbalanced` and
  `mismatched`).  The final normalization loop of `getMainThreadTasks`
  interleaves rescaling with the finiteness check and throws at the first
  non-finite self-time; the embedding rescales everything and then checks,
  which returns the same forest-or-error result.
-/

/-- `NaN`-propagating addition on JS numbers. -/
def qAdd : Option ℚ → Option ℚ → Option ℚ
  | some a, some b => some (a + b)
  | _, _ => none

/-- `NaN`-propagating subtraction on JS numbers. -/
def qSub : Option ℚ → Option ℚ → Option ℚ
  | some a, some b => some (a - b)
  | _, _ => none

/-- JS truthiness of a string-or-undefined value (`undefined` and `''` are
falsy). -/
def strTruthy : Option String → Bool
  | some s => decide (s ≠ "")
  | none => false

/-- The JS `a || b` operator on string-or-undefined values. -/
def jsOrStr (a b : Option String) : Option String :=
  if strTruthy a then a else b

/-- A frame of `args.data.stackTrace`: only its `url` field is read. -/
structure StackFrame where
  url : Option String
deriving DecidableEq

/-- The `args.data` payload of a trace event, as read by the attribution
pass. -/
structure TraceArgsData where
  url : Option String
  stackTrace : Option (List StackFrame)
deriving DecidableEq

/-- The `args` field of a trace event. -/
structure TraceArgs where
  data : Option TraceArgsData
deriving DecidableEq

/-- A raw trace event (`LH.TraceEvent`), restricted to the fields the engine
reads: phase, name, timestamp (microseconds), duration (Complete events),
process id, thread id, payload. -/
structure TraceEvent where
  ph : String
  name : String
  ts : ℚ
  dur : Option ℚ
  pid : Nat
  tid : Nat
  args : TraceArgs
deriving DecidableEq

/-- A task group of the category taxonomy (`task-groups.js`), with `id`
already set to its key by the initialization loop. -/
structure TaskGroup where
  id : String
  label : String
  traceEventNames : List String
deriving DecidableEq

/-- `taskGroups.ParseHTML`. -/
def taskGroups.ParseHTML : TaskGroup :=
  ⟨"ParseHTML", "Parse HTML & CSS", ["ParseHTML", "ParseAuthorStyleSheet"]⟩

/-- `taskGroups.StyleLayout`. -/
def taskGroups.StyleLayout : TaskGroup :=
  ⟨"StyleLayout", "Style & Layout",
    ["ScheduleStyleRecalculation", "RecalculateStyles", "UpdateLayoutTree",
     "InvalidateLayout", "Layout", "UpdateLayer", "UpdateLayerTree"]⟩

/-- `taskGroups.PaintCompositeRender`. -/
def taskGroups.PaintCompositeRender : TaskGroup :=
  ⟨"PaintCompositeRender", "Rendering",
    ["Animation", "RequestMainThreadFrame", "ActivateLayerTree", "DrawFrame",
     "HitTest", "PaintSetup", "Paint", "PaintImage", "Rasterize", "RasterTask",
     "ScrollLayer", "CompositeLayers"]⟩

/-- `taskGroups.ScriptParseCompile`. -/
def taskGroups.ScriptParseCompile : TaskGroup :=
  ⟨"ScriptParseCompile", "Script Parsing & Compilation",
    ["v8.compile", "v8.compileModule", "v8.parseOnBackground"]⟩

/-- `taskGroups.ScriptEvaluation`. -/
def taskGroups.ScriptEvaluation : TaskGroup :=
  ⟨"ScriptEvaluation", "Script Evaluation",
    ["EventDispatch", "EvaluateScript", "EvaluateModule", "FunctionCall",
     "TimerFire", "FireIdleCallback", "FireAnimationFrame", "RunMicrotasks",
     "V8.Execute"]⟩

/-- `taskGroups.GarbageCollection`. -/
def taskGroups.GarbageCollection : TaskGroup :=
  ⟨"GarbageCollection", "Garbage Collection",
    ["GCEvent", "MinorGC", "MajorGC", "ThreadState::performIdleLazySweep",
     "ThreadState::completeSweep", "BlinkGCMarking"]⟩

/-- `taskGroups.Other` (note: the key is capital-O `Other`). -/
def taskGroups.Other : TaskGroup :=
  ⟨"Other", "Other",
    ["MessageLoop::RunTask", "TaskQueueManager::ProcessTaskFromWorkQueue",
     "ThreadControllerImpl::DoWork"]⟩

/-- The `taskGroups` object in `Object.entries` (insertion) order. -/
def taskGroupsList : List TaskGroup :=
  [taskGroups.ParseHTML, taskGroups.StyleLayout, taskGroups.PaintCompositeRender,
   taskGroups.ScriptParseCompile, taskGroups.ScriptEvaluation,
   taskGroups.GarbageCollection, taskGroups.Other]

/-- The (event name, group) pairs inserted into `taskNameToGroup` by the
initialization loop, in insertion order. -/
def nameGroupPairs : List (String × TaskGroup) :=
  taskGroupsList.foldr (fun g acc => g.traceEventNames.map (fun n => (n, g)) ++ acc) []

/-- The reverse lookup `taskNameToGroup` (event name → group).  The JS object
is keyed last-write-wins; the event names across groups are pairwise distinct
(`nameGroupPairs_keys_nodup` below), so first-match lookup agrees. -/
def taskNameToGroup (name : String) : Option TaskGroup :=
  nameGroupPairs.lookup name

/-- The source's `taskGroups.other` property access: the `taskGroups` object
has no lowercase `other` key (its key is `Other`), so this is `undefined`. -/
def taskGroupsOtherLower : Option TaskGroup := none

/-- A reconstructed task (`TaskNode` of `main-thread-tasks.js`), with
`parent`/`children` as arena indices. -/
structure TaskNode where
  event : TraceEvent
  startTime : ℚ
  endTime : Option ℚ
  parent : Option Nat
  children : List Nat
  group : Option TaskGroup
  attributableURL : Option String
  duration : Option ℚ
  selfTime : Option ℚ
deriving DecidableEq

/-- `MainThreadTasks._createNewTaskNode`: the fresh node (the JS
`parent.children.push(newTask)` side effect is performed by `addChildTask`,
which owns the arena).  `endTime` is `ts + Number(dur || 0)` for a Complete
event and `NaN` (here `none`) otherwise; `group` is initialized to the
source's `taskGroups.other`, i.e. `undefined`. -/
def _createNewTaskNode (event : TraceEvent) (parent : Option Nat) : TaskNode :=
  { event := event
    startTime := event.ts
    endTime := if event.ph = "X" then some (event.ts + event.dur.getD 0) else none
    parent := parent
    children := []
    group := taskGroupsOtherLower
    attributableURL := none
    duration := none
    selfTime := none }

/-- State of the reconstruction loop: the arena built so far and the stack of
open tasks (head = `currentTask`, tail = its chain of `parent` references). -/
structure BuildState where
  tasks : List TaskNode
  stack : List Nat
deriving DecidableEq

/-- The trace-analysis error kinds (one per throw site, named as in the
spec's §7). -/
inductive TraceError
  | missingAnchor
  | unbalanced
  | mismatched
  | invalidTiming
deriving DecidableEq

/-- The close-out loop of `_createTasksFromEvents`: while the current task
has a finite end time ≤ the incoming event's timestamp, move the cursor to
its parent (= pop the open-task stack). -/
def closeOut (tasks : List TaskNode) (ts : ℚ) : List Nat → List Nat
  | [] => []
  | cur :: rest =>
    match tasks[cur]? with
    | some t =>
      match t.endTime with
      | some e => if e ≤ ts then closeOut tasks ts rest else cur :: rest
      | none => cur :: rest
    | none => cur :: rest

/-- Create a new task as a child of `tasks[cur]` and append it to the arena
(the JS `_createNewTaskNode(event, currentTask)` call plus the `tasks.push`):
the new node's index is `tasks.length`, recorded in the parent's `children`.
The `none` branch is unreachable: `cur` is always a valid on-stack index. -/
def addChildTask (tasks : List TaskNode) (cur : Nat) (event : TraceEvent) : List TaskNode :=
  match tasks[cur]? with
  | some t =>
      tasks.set cur { t with children := t.children ++ [tasks.length] }
        ++ [_createNewTaskNode event (some cur)]
  | none => tasks ++ [_createNewTaskNode event (some cur)]

/-- The filter applied inside the event loop: keep only events of the primary
(pid, tid) whose phase is `X`, `B` or `E` (the two `continue` statements). -/
def keepEvent (anchor : TraceEvent) (e : TraceEvent) : Bool :=
  (e.pid = anchor.pid && e.tid = anchor.tid) && (e.ph = "X" || e.ph = "B" || e.ph = "E")

/-- One iteration of the `_createTasksFromEvents` loop body. -/
def processEvent (anchor : TraceEvent) (st : BuildState) (event : TraceEvent) :
    Except TraceError BuildState :=
  if keepEvent anchor event then
    let stack := closeOut st.tasks event.ts st.stack
    match stack with
    | [] =>
      -- No current task: an End event is illegal, otherwise open a new root.
      if event.ph = "E" then .error .unbalanced
      else .ok ⟨st.tasks ++ [_createNewTaskNode event none], [st.tasks.length]⟩
    | cur :: rest =>
      if event.ph = "X" ∨ event.ph = "B" then
        -- Start a nested child task and make it current.
        .ok ⟨addChildTask st.tasks cur event, st.tasks.length :: cur :: rest⟩
      else
        -- An End event: the current task must have been opened by Begin.
        match st.tasks[cur]? with
        | some t =>
          if t.event.ph = "B" then
            .ok ⟨st.tasks.set cur { t with endTime := some event.ts }, rest⟩
          else .error .mismatched
        | none => .error .mismatched
  else .ok st

/-- The `_createTasksFromEvents` loop over the whole event list. -/
def runEvents (anchor : TraceEvent) (evts : List TraceEvent) (st : BuildState) :
    Except TraceError BuildState :=
  evts.foldlM (processEvent anchor) st

/-- Modelled from the spec: `TraceProcessor.findTracingStartedEvt`
(`lighthouse-core/lib/traces/tracing-processor.js` is not part of this
repository snapshot).  Per §4.2 the primary thread is determined by the first
event carrying the page-tracking marker name — `TracingStartedInPage`, the
name the repository's own test traces use — and the search fails with
`MissingAnchorError` when no such event exists. -/
def findTracingStartedEvt (evts : List TraceEvent) : Except TraceError TraceEvent :=
  match evts.find? (fun e => e.name = "TracingStartedInPage") with
  | some e => .ok e
  | none => .error .missingAnchor

/-- `MainThreadTasks._createTasksFromEvents`. -/
def _createTasksFromEvents (traceEvents : List TraceEvent) :
    Except TraceError (List TaskNode) := do
  let startedInPageEvt ← findTracingStartedEvt traceEvents
  let st ← runEvents startedInPageEvt traceEvents ⟨[], []⟩
  return st.tasks

/-- `task.endTime - task.startTime`, the node's duration as written by
`_computeRecursiveSelfTime`. -/
def nodeDuration (t : TaskNode) : Option ℚ :=
  qSub t.endTime (some t.startTime)

/-- The durations of a node's children, in order (out-of-range indices are
unreachable on well-formed arenas and contribute `NaN`). -/
def childDurations (tasks : List TaskNode) (t : TaskNode) : List (Option ℚ) :=
  t.children.map fun j =>
    match tasks[j]? with
    | some c => nodeDuration c
    | none => none

/-- The JS `reduce((sum, child) => sum + child, 0)`. -/
def optSum (l : List (Option ℚ)) : Option ℚ :=
  l.foldl qAdd (some 0)

/-- The `childTime` accumulator of `_computeRecursiveSelfTime`. -/
def childTime (tasks : List TaskNode) (t : TaskNode) : Option ℚ :=
  optSum (childDurations tasks t)

/-- `_computeRecursiveSelfTime`, as the values it stores into each node:
`duration = endTime - startTime` and `selfTime = duration - childTime`
(see the module comment on pass embedding). -/
def computeSelfTimesPass (tasks : List TaskNode) : List TaskNode :=
  tasks.map fun t =>
    { t with duration := nodeDuration t
             selfTime := qSub (nodeDuration t) (childTime tasks t) }

/-- The task's own candidate URL in `_computeRecursiveAttributableURL`:
`argsData.url || (stackFrames[0] && stackFrames[0].url)` with
`argsData = event.args.data || {}` and
`stackFrames = argsData.stackTrace || [{url: undefined}]`. -/
def taskURLOf (event : TraceEvent) : Option String :=
  let argsData := event.args.data.getD ⟨none, none⟩
  let stackFrames := argsData.stackTrace.getD [⟨none⟩]
  jsOrStr argsData.url (stackFrames.head?.bind StackFrame.url)

/-- Map a function over the arena together with each node's index (`k` is the
index of the first element). -/
def mapWithIdx (f : Nat → TaskNode → TaskNode) : Nat → List TaskNode → List TaskNode
  | _, [] => []
  | k, t :: rest => f k t :: mapWithIdx f (k + 1) rest

/-- The final attributable URL of node `i`, fuelled so that the recursion is
structural (`finalURL` below instantiates the fuel):
`task.attributableURL = parentURL || taskURL`, where `parentURL` is the
parent's final attributable URL (`undefined` at roots).  The `p < i` guard is
the arena well-formedness fact, true for every arena the reconstruction
builds (`SInv.pLt` below), and it also bounds the parent-chain length, so a
fuel of `i + 1` never runs out (`finalURLFuel_congr` below). -/
def finalURLFuel (tasks : List TaskNode) : Nat → Nat → Option String
  | 0, _ => none
  | fuel + 1, i =>
    if h : i < tasks.length then
      let t := tasks[i]
      let pURL : Option String :=
        match t.parent with
        | some p => if p < i then finalURLFuel tasks fuel p else none
        | none => none
      jsOrStr pURL (taskURLOf t.event)
    else none

/-- The final attributable URL of node `i`. -/
def finalURL (tasks : List TaskNode) (i : Nat) : Option String :=
  finalURLFuel tasks (i + 1) i

/-- `_computeRecursiveAttributableURL`, as an arena map (see the module
comment on pass embedding). -/
def computeURLsPass (tasks : List TaskNode) : List TaskNode :=
  mapWithIdx (fun i t => { t with attributableURL := finalURL tasks i }) 0 tasks

/-- The JS `||` on group-or-undefined values (group objects are truthy). -/
def jsOrGroup : Option TaskGroup → Option TaskGroup → Option TaskGroup
  | some g, _ => some g
  | none, b => b

/-- The final group of node `i`, fuelled like `finalURLFuel`:
`task.group = group || parentGroup || taskGroups.other`, where `group` is the
reverse lookup of the node's own event name, `parentGroup` is the parent's
final group (`undefined` at roots) and `taskGroups.other` is `undefined`. -/
def finalGroupFuel (tasks : List TaskNode) : Nat → Nat → Option TaskGroup
  | 0, _ => none
  | fuel + 1, i =>
    if h : i < tasks.length then
      let t := tasks[i]
      let pGroup : Option TaskGroup :=
        match t.parent with
        | some p => if p < i then finalGroupFuel tasks fuel p else none
        | none => none
      jsOrGroup (taskNameToGroup t.event.name) (jsOrGroup pGroup taskGroupsOtherLower)
    else none

/-- The final group of node `i`. -/
def finalGroup (tasks : List TaskNode) (i : Nat) : Option TaskGroup :=
  finalGroupFuel tasks (i + 1) i

/-- `_computeRecursiveTaskGroup`, as an arena map (see the module comment on
pass embedding). -/
def computeGroupsPass (tasks : List TaskNode) : List TaskNode :=
  mapWithIdx (fun i t => { t with group := finalGroup tasks i }) 0 tasks

/-- `(tasks[0] || {startTime: 0}).startTime`. -/
def firstStartTime : List TaskNode → ℚ
  | [] => 0
  | t :: _ => t.startTime

/-- The time-normalization loop of `getMainThreadTasks`: rebase to the first
task's start and rescale microseconds to milliseconds. -/
def normalizeTimes (tasks : List TaskNode) : List TaskNode :=
  let firstTs := firstStartTime tasks
  tasks.map fun t =>
    { t with startTime := (t.startTime - firstTs) / 1000
             endTime := t.endTime.map fun e => (e - firstTs) / 1000
             duration := t.duration.map (· / 1000)
             selfTime := t.selfTime.map (· / 1000) }

/-- The final sanity gate of `getMainThreadTasks`: every task's self-time
must be finite, otherwise the analysis fails (`Invalid task timing data`). -/
def checkTiming (tasks : List TaskNode) : Except TraceError (List TaskNode) :=
  if tasks.all (fun t => t.selfTime.isSome) then .ok tasks else .error .invalidTiming

/-- `MainThreadTasks.getMainThreadTasks`. -/
def getMainThreadTasks (traceEvents : List TraceEvent) :
    Except TraceError (List TaskNode) := do
  let built ← _createTasksFromEvents traceEvents
  let aggregated := computeSelfTimesPass built
  let attributed := computeURLsPass aggregated
  let classified := computeGroupsPass attributed
  checkTiming (normalizeTimes classified)

/-- The arena after the three recursive passes, before time normalization
(the state `getMainThreadTasks` holds when it reads `firstTs`). -/
def preNormalizedTasks (traceEvents : List TraceEvent) :
    Except TraceError (List TaskNode) :=
  (_createTasksFromEvents traceEvents).map fun built =>
    computeGroupsPass (computeURLsPass (computeSelfTimesPass built))

/-- Decidable equality of trace-analysis results. -/
instance {ε α : Type} [DecidableEq ε] [DecidableEq α] : DecidableEq (Except ε α) := fun x y =>
  match x, y with
  | .ok a, .ok c => if h : a = c then .isTrue (by rw [h]) else .isFalse (by simp [h])
  | .error a, .error c => if h : a = c then .isTrue (by rw [h]) else .isFalse (by simp [h])
  | .ok _, .error _ => .isFalse (by simp)
  | .error _, .ok _ => .isFalse (by simp)

/-- `Σ(children durations)` read off the `duration` fields of a finished
forest (used to state the aggregation claim). -/
def sumChildDur (tasks : List TaskNode) (t : TaskNode) : Option ℚ :=
  optSum (t.children.map fun j => (tasks[j]?).bind TaskNode.duration)

/-- Number of events of the filtered primary-thread sequence with phase
`ph`. -/
def countFilteredPh (anchor : TraceEvent) (ph : String) (evts : List TraceEvent) : Nat :=
  evts.countP fun e => keepEvent anchor e && (e.ph == ph)

/-- Number of arena tasks whose end time is still unresolved (`NaN`). -/
def countOpenEnds (tasks : List TaskNode) : Nat :=
  tasks.countP fun t => t.endTime.isNone

/-- Arena well-formedness: every parent index is smaller than its child's
index (parents are created strictly before their children). -/
def ParentLt (tasks : List TaskNode) : Prop :=
  ∀ i (h : i < tasks.length) p, tasks[i].parent = some p → p < i

/-- Arena well-formedness: children indices are in range and strictly larger
than their parent's index. -/
def ChildrenBound (tasks : List TaskNode) : Prop :=
  ∀ i (h : i < tasks.length), ∀ j ∈ tasks[i].children, i < j ∧ j < tasks.length

/-- Arena start times are non-decreasing in creation order (holds when the
input events are timestamp-sorted). -/
def StartMono (tasks : List TaskNode) : Prop :=
  ∀ i j (hi : i < tasks.length) (hj : j < tasks.length), i ≤ j →
    tasks[i].startTime ≤ tasks[j].startTime

/-- Every task created so far started no later than `q`. -/
def ArenaLe (tasks : List TaskNode) (q : ℚ) : Prop :=
  ∀ i (h : i < tasks.length), tasks[i].startTime ≤ q

/-- Invariant of the reconstruction loop state: arena well-formedness plus
the open-task stack being a strictly decreasing list of valid indices whose
Begin-opened entries still have unresolved end times. -/
structure SInv (st : BuildState) : Prop where
  pLt : ParentLt st.tasks
  cBound : ChildrenBound st.tasks
  sBound : ∀ i ∈ st.stack, i < st.tasks.length
  sDec : st.stack.Pairwise fun a c => c < a
  sBOpen : ∀ i ∈ st.stack, ∀ (h : i < st.tasks.length),
    st.tasks[i].event.ph = "B" → st.tasks[i].endTime = none

/-- An `args` payload with an empty `data` object (the test fixtures'
`evt.args = {data: {}}`). -/
def noArgs : TraceArgs := ⟨some ⟨none, none⟩⟩

/-- Scenario A, the tracing-start marker: an instant event on the primary
thread. -/
def evtMarkerA : TraceEvent := ⟨"I", "TracingStartedInPage", 1000000, none, 1, 2, noArgs⟩

/-- Scenario A: TaskA, a Complete event of duration 100ms at relative time
0. -/
def evtTaskA : TraceEvent := ⟨"X", "TaskA", 1000000, some 100000, 1, 2, noArgs⟩

/-- Scenario A: TaskB opened via Begin at +5ms. -/
def evtTaskB : TraceEvent := ⟨"B", "TaskB", 1005000, none, 1, 2, noArgs⟩

/-- Scenario A: TaskC, a Complete event of duration 30ms at +10ms. -/
def evtTaskC : TraceEvent := ⟨"X", "TaskC", 1010000, some 30000, 1, 2, noArgs⟩

/-- Scenario A: the End event closing TaskB at +55ms. -/
def evtTaskBEnd : TraceEvent := ⟨"E", "TaskB", 1055000, none, 1, 2, noArgs⟩

/-- The four-event input of Scenario A (plus the tracing-start marker). -/
def scenarioAEvents : List TraceEvent :=
  [evtMarkerA, evtTaskA, evtTaskB, evtTaskC, evtTaskBEnd]

/-- The forest Scenario A produces (times in milliseconds relative to
TaskA's start). -/
def scenarioAResult : List TaskNode :=
  [ { event := evtTaskA, startTime := 0, endTime := some 100, parent := none,
      children := [1], group := none, attributableURL := none,
      duration := some 100, selfTime := some 50 },
    { event := evtTaskB, startTime := 5, endTime := some 55, parent := some 0,
      children := [2], group := none, attributableURL := none,
      duration := some 50, selfTime := some 20 },
    { event := evtTaskC, startTime := 10, endTime := some 40, parent := some 1,
      children := [], group := none, attributableURL := none,
      duration := some 30, selfTime := some 30 } ]

/-- The Scenario A arena right before time normalization (microsecond
times). -/
def scenarioAPre : List TaskNode :=
  [ { event := evtTaskA, startTime := 1000000, endTime := some 1100000, parent := none,
      children := [1], group := none, attributableURL := none,
      duration := some 100000, selfTime := some 50000 },
    { event := evtTaskB, startTime := 1005000, endTime := some 1055000, parent := some 0,
      children := [2], group := none, attributableURL := none,
      duration := some 50000, selfTime := some 20000 },
    { event := evtTaskC, startTime := 1010000, endTime := some 1040000, parent := some 1,
      children := [], group := none, attributableURL := none,
      duration := some 30000, selfTime := some 30000 } ]

/-- Category-inheritance trace: an `EvaluateScript` Complete event containing
a nested `Layout` Complete event. -/
def categoryCexEvents : List TraceEvent :=
  [ ⟨"I", "TracingStartedInPage", 1000000, none, 1, 2, noArgs⟩,
    ⟨"X", "EvaluateScript", 1000000, some 100000, 1, 2, noArgs⟩,
    ⟨"X", "Layout", 1010000, some 20000, 1, 2, noArgs⟩ ]

/-- Containment counterexample trace: a Complete task (end +100ms) holding a
Begin task whose End event arrives only at +200ms. -/
def containmentCexEvents : List TraceEvent :=
  [ ⟨"I", "TracingStartedInPage", 1000000, none, 1, 2, noArgs⟩,
    ⟨"X", "TaskP", 1000000, some 100000, 1, 2, noArgs⟩,
    ⟨"B", "TaskQ", 1050000, none, 1, 2, noArgs⟩,
    ⟨"E", "TaskQ", 1200000, none, 1, 2, noArgs⟩ ]

/-- Scenario D trace: a root with an explicit payload URL and a child whose
call stack points at a different URL. -/
def urlPrecedenceEvents : List TraceEvent :=
  [ ⟨"I", "TracingStartedInPage", 1000000, none, 1, 2, noArgs⟩,
    ⟨"X", "EvaluateScript", 1000000, some 100000, 1, 2,
      ⟨some ⟨some "https://example.com/a.js", none⟩⟩⟩,
    ⟨"X", "FunctionCall", 1010000, some 20000, 1, 2,
      ⟨some ⟨none, some [⟨some "https://example.com/b.js"⟩]⟩⟩⟩ ]

/-- Scenario B trace: an End event before any task has been opened. -/
def unbalancedEvents : List TraceEvent :=
  [ ⟨"I", "TracingStartedInPage", 1000000, none, 1, 2, noArgs⟩,
    ⟨"E", "TaskX", 1001000, none, 1, 2, noArgs⟩ ]

/-- Mismatch trace: an End event arriving while the open task was created by
a Complete event whose window has not yet passed. -/
def mismatchedEvents : List TraceEvent :=
  [ ⟨"I", "TracingStartedInPage", 1000000, none, 1, 2, noArgs⟩,
    ⟨"X", "TaskA", 1000000, some 100000, 1, 2, noArgs⟩,
    ⟨"E", "TaskA", 1050000, none, 1, 2, noArgs⟩ ]

/-- Unclosed-Begin trace: a Begin event with no matching End. -/
def unclosedBeginEvents : List TraceEvent :=
  [ ⟨"I", "TracingStartedInPage", 1000000, none, 1, 2, noArgs⟩,
    ⟨"B", "TaskB", 1000000, none, 1, 2, noArgs⟩ ]

/-! ## Basic lemmas -/

theorem length_mapWithIdx (f : Nat → TaskNode → TaskNode) :
    ∀ (k : Nat) (l : List TaskNode), (mapWithIdx f k l).length = l.length := by
  intro k l
  induction l generalizing k with
  | nil => rfl
  | cons t rest ih => simp [mapWithIdx, ih]

theorem getElem_mapWithIdx (f : Nat → TaskNode → TaskNode) :
    ∀ (k : Nat) (l : List TaskNode) (i : Nat) (h : i < (mapWithIdx f k l).length)
      (h2 : i < l.length), (mapWithIdx f k l)[i] = f (k + i) l[i] := by
  intro k l
  induction l generalizing k with
  | nil => intro i h h2; simp at h2
  | cons t rest ih =>
    intro i h h2
    cases i with
    | zero => simp [mapWithIdx]
    | succ n =>
      have hn : n < rest.length := by simpa using h2
      have hm : n < (mapWithIdx f (k + 1) rest).length := by
        rw [length_mapWithIdx]; exact hn
      simp only [mapWithIdx, List.getElem_cons_succ]
      rw [ih (k + 1) n hm hn]
      congr 1
      omega

theorem runEvents_nil (anchor : TraceEvent) (st : BuildState) :
    runEvents anchor [] st = .ok st := rfl

theorem runEvents_cons (anchor : TraceEvent) (e : TraceEvent) (l : List TraceEvent)
    (st : BuildState) :
    runEvents anchor (e :: l) st =
      (processEvent anchor st e).bind (runEvents anchor l) := by
  simp only [runEvents, List.foldlM_cons]
  rfl

theorem runEvents_append (anchor : TraceEvent) (l l2 : List TraceEvent) (st : BuildState) :
    runEvents anchor (l ++ l2) st = (runEvents anchor l st).bind (runEvents anchor l2) := by
  rw [runEvents, List.foldlM_append]
  rfl

theorem closeOut_suffix (tasks : List TaskNode) (ts : ℚ) :
    ∀ l : List Nat, closeOut tasks ts l <:+ l := by
  intro l
  induction l with
  | nil => simp [closeOut]
  | cons cur rest ih =>
    rw [closeOut]
    cases h : tasks[cur]? with
    | none => exact List.suffix_rfl
    | some t =>
      dsimp only
      cases he : t.endTime with
      | none => exact List.suffix_rfl
      | some e =>
        dsimp only
        by_cases hle : e ≤ ts
        · simp only [hle, if_true]
          exact ih.trans (List.suffix_cons cur rest)
        · simp only [hle, if_false]
          exact List.suffix_rfl

theorem closeOut_subset (tasks : List TaskNode) (ts : ℚ) (l : List Nat) :
    ∀ i ∈ closeOut tasks ts l, i ∈ l :=
  fun _ hi => (closeOut_suffix tasks ts l).subset hi

theorem closeOut_pairwise (tasks : List TaskNode) (ts : ℚ) (l : List Nat)
    (h : l.Pairwise fun a c => c < a) :
    (closeOut tasks ts l).Pairwise fun a c => c < a :=
  h.sublist (closeOut_suffix tasks ts l).sublist

/-! ## Pass characterization lemmas -/

theorem length_computeSelfTimesPass (tasks : List TaskNode) :
    (computeSelfTimesPass tasks).length = tasks.length :=
  List.length_map tasks _

theorem getElem_computeSelfTimesPass (tasks : List TaskNode) (i : Nat)
    (h : i < (computeSelfTimesPass tasks).length) (h2 : i < tasks.length) :
    (computeSelfTimesPass tasks)[i] =
      { tasks[i] with duration := nodeDuration tasks[i]
                      selfTime := qSub (nodeDuration tasks[i]) (childTime tasks tasks[i]) } :=
  List.getElem_map _

theorem length_computeURLsPass (tasks : List TaskNode) :
    (computeURLsPass tasks).length = tasks.length :=
  length_mapWithIdx _ 0 tasks

theorem getElem_computeURLsPass (tasks : List TaskNode) (i : Nat)
    (h : i < (computeURLsPass tasks).length) (h2 : i < tasks.length) :
    (computeURLsPass tasks)[i] = { tasks[i] with attributableURL := finalURL tasks i } := by
  simp only [computeURLsPass] at h ⊢
  rw [getElem_mapWithIdx _ 0 tasks i h h2, Nat.zero_add]

theorem length_computeGroupsPass (tasks : List TaskNode) :
    (computeGroupsPass tasks).length = tasks.length :=
  length_mapWithIdx _ 0 tasks

theorem getElem_computeGroupsPass (tasks : List TaskNode) (i : Nat)
    (h : i < (computeGroupsPass tasks).length) (h2 : i < tasks.length) :
    (computeGroupsPass tasks)[i] = { tasks[i] with group := finalGroup tasks i } := by
  simp only [computeGroupsPass] at h ⊢
  rw [getElem_mapWithIdx _ 0 tasks i h h2, Nat.zero_add]

theorem length_normalizeTimes (tasks : List TaskNode) :
    (normalizeTimes tasks).length = tasks.length :=
  List.length_map tasks _

theorem getElem_normalizeTimes (tasks : List TaskNode) (i : Nat)
    (h : i < (normalizeTimes tasks).length) (h2 : i < tasks.length) :
    (normalizeTimes tasks)[i] =
      { tasks[i] with
        startTime := (tasks[i].startTime - firstStartTime tasks) / 1000
        endTime := tasks[i].endTime.map fun e => (e - firstStartTime tasks) / 1000
        duration := tasks[i].duration.map (· / 1000)
        selfTime := tasks[i].selfTime.map (· / 1000) } :=
  List.getElem_map _

theorem jsOrStr_none (x : Option String) : jsOrStr none x = x := rfl

theorem jsOrGroup_none_right (x : Option TaskGroup) : jsOrGroup x none = x := by
  cases x <;> rfl

theorem finalURLFuel_congr (tasks : List TaskNode) :
    ∀ f1 f2 i, i < f1 → i < f2 → finalURLFuel tasks f1 i = finalURLFuel tasks f2 i := by
  intro f1
  induction f1 with
  | zero => intro f2 i h1 h2; omega
  | succ a ih =>
    intro f2 i h1 h2
    cases f2 with
    | zero => omega
    | succ c =>
      rw [finalURLFuel, finalURLFuel]
      by_cases h : i < tasks.length
      · rw [dif_pos h, dif_pos h]
        dsimp only
        cases hp : tasks[i].parent with
        | none => rfl
        | some p =>
          dsimp only
          by_cases hpi : p < i
          · rw [if_pos hpi, if_pos hpi, ih c p (by omega) (by omega)]
          · rw [if_neg hpi, if_neg hpi]
      · rw [dif_neg h, dif_neg h]

theorem finalGroupFuel_congr (tasks : List TaskNode) :
    ∀ f1 f2 i, i < f1 → i < f2 → finalGroupFuel tasks f1 i = finalGroupFuel tasks f2 i := by
  intro f1
  induction f1 with
  | zero => intro f2 i h1 h2; omega
  | succ a ih =>
    intro f2 i h1 h2
    cases f2 with
    | zero => omega
    | succ c =>
      rw [finalGroupFuel, finalGroupFuel]
      by_cases h : i < tasks.length
      · rw [dif_pos h, dif_pos h]
        dsimp only
        cases hp : tasks[i].parent with
        | none => rfl
        | some p =>
          dsimp only
          by_cases hpi : p < i
          · rw [if_pos hpi, if_pos hpi, ih c p (by omega) (by omega)]
          · rw [if_neg hpi, if_neg hpi]
      · rw [dif_neg h, dif_neg h]

theorem finalURL_root (tasks : List TaskNode) (i : Nat) (h : i < tasks.length)
    (hp : tasks[i].parent = none) :
    finalURL tasks i = taskURLOf tasks[i].event := by
  rw [finalURL, finalURLFuel, dif_pos h]
  dsimp only
  rw [hp]
  rfl

theorem finalURL_child (tasks : List TaskNode) (i p : Nat) (h : i < tasks.length)
    (hp : tasks[i].parent = some p) (hlt : p < i) :
    finalURL tasks i = jsOrStr (finalURL tasks p) (taskURLOf tasks[i].event) := by
  rw [finalURL, finalURLFuel, dif_pos h]
  dsimp only
  rw [hp]
  dsimp only
  rw [if_pos hlt, finalURLFuel_congr tasks i (p + 1) p hlt (by omega)]
  rfl

theorem finalGroup_root (tasks : List TaskNode) (i : Nat) (h : i < tasks.length)
    (hp : tasks[i].parent = none) :
    finalGroup tasks i = taskNameToGroup tasks[i].event.name := by
  rw [finalGroup, finalGroupFuel, dif_pos h]
  dsimp only
  rw [hp]
  dsimp only
  cases taskNameToGroup tasks[i].event.name <;> rfl

theorem finalGroup_child (tasks : List TaskNode) (i p : Nat) (h : i < tasks.length)
    (hp : tasks[i].parent = some p) (hlt : p < i) :
    finalGroup tasks i = jsOrGroup (taskNameToGroup tasks[i].event.name) (finalGroup tasks p) := by
  rw [finalGroup, finalGroupFuel, dif_pos h]
  dsimp only
  rw [hp]
  dsimp only
  rw [if_pos hlt, finalGroupFuel_congr tasks i (p + 1) p hlt (by omega),
    show taskGroupsOtherLower = none from rfl, jsOrGroup_none_right]
  rfl

/-- On a successful run the result is the built arena sent through the three
passes and normalization, and every self-time in it is finite. -/
theorem getMainThreadTasks_ok_elim {evts : List TraceEvent} {out : List TaskNode}
    (h : getMainThreadTasks evts = .ok out) :
    ∃ built, _createTasksFromEvents evts = .ok built ∧
      out = normalizeTimes (computeGroupsPass (computeURLsPass (computeSelfTimesPass built))) ∧
      (out.all fun t => t.selfTime.isSome) = true := by
  unfold getMainThreadTasks at h
  cases hb : _createTasksFromEvents evts with
  | error e => rw [hb] at h; exact absurd h (by simp [Bind.bind, Except.bind])
  | ok built =>
    rw [hb] at h
    simp only [Bind.bind, Except.bind] at h
    unfold checkTiming at h
    split at h
    · cases h
      exact ⟨built, rfl, rfl, by assumption⟩
    · cases h

/-! ## The reconstruction-step case analysis -/

theorem keepEvent_ph {anchor e : TraceEvent} (h : keepEvent anchor e = true) :
    e.ph = "X" ∨ e.ph = "B" ∨ e.ph = "E" := by
  simp only [keepEvent, Bool.and_eq_true, Bool.or_eq_true, decide_eq_true_eq] at h
  tauto

theorem addChildTask_eq (tasks : List TaskNode) (cur : Nat) (e : TraceEvent)
    (h : cur < tasks.length) :
    addChildTask tasks cur e =
      tasks.set cur { tasks[cur] with children := tasks[cur].children ++ [tasks.length] }
        ++ [_createNewTaskNode e (some cur)] := by
  unfold addChildTask
  rw [List.getElem?_eq_getElem h]

theorem getElem_append_one (l : List TaskNode) (t : TaskNode) (i : Nat)
    (h : i < (l ++ [t]).length) :
    (l ++ [t])[i] = if h2 : i < l.length then l[i] else t := by
  by_cases h2 : i < l.length
  · rw [dif_pos h2, List.getElem_append_left h2]
  · have hlen : i = l.length := by
      simp only [List.length_append, List.length_singleton] at h
      omega
    rw [dif_neg h2, List.getElem_append_right (by omega)]
    simp [hlen]

/-- Exhaustive description of a successful reconstruction step: the event is
skipped, opens a root, opens a child of the closed-out current task, or ends
the current (Begin-opened) task. -/
theorem processEvent_ok_cases {anchor : TraceEvent} {st : BuildState} {e : TraceEvent}
    {st' : BuildState} (h : processEvent anchor st e = .ok st') :
    (keepEvent anchor e = false ∧ st' = st) ∨
    (keepEvent anchor e = true ∧ closeOut st.tasks e.ts st.stack = [] ∧ e.ph ≠ "E" ∧
      st' = ⟨st.tasks ++ [_createNewTaskNode e none], [st.tasks.length]⟩) ∨
    (∃ cur rest, keepEvent anchor e = true ∧ closeOut st.tasks e.ts st.stack = cur :: rest ∧
      (e.ph = "X" ∨ e.ph = "B") ∧
      st' = ⟨addChildTask st.tasks cur e, st.tasks.length :: cur :: rest⟩) ∨
    (∃ cur rest t, keepEvent anchor e = true ∧ closeOut st.tasks e.ts st.stack = cur :: rest ∧
      ¬(e.ph = "X" ∨ e.ph = "B") ∧ st.tasks[cur]? = some t ∧ t.event.ph = "B" ∧
      st' = ⟨st.tasks.set cur { t with endTime := some e.ts }, rest⟩) := by
  unfold processEvent at h
  by_cases hk : keepEvent anchor e = true
  · rw [if_pos hk] at h
    cases hc : closeOut st.tasks e.ts st.stack with
    | nil =>
      rw [hc] at h
      dsimp only at h
      by_cases hE : e.ph = "E"
      · rw [if_pos hE] at h; cases h
      · rw [if_neg hE] at h
        cases h
        exact Or.inr (Or.inl ⟨hk, rfl, hE, rfl⟩)
    | cons cur rest =>
      rw [hc] at h
      dsimp only at h
      by_cases hXB : e.ph = "X" ∨ e.ph = "B"
      · rw [if_pos hXB] at h
        cases h
        exact Or.inr (Or.inr (Or.inl ⟨cur, rest, hk, rfl, hXB, rfl⟩))
      · rw [if_neg hXB] at h
        cases ht : st.tasks[cur]? with
        | none => rw [ht] at h; cases h
        | some t =>
          rw [ht] at h
          dsimp only at h
          by_cases hB : t.event.ph = "B"
          · rw [if_pos hB] at h
            cases h
            exact Or.inr (Or.inr (Or.inr ⟨cur, rest, t, hk, rfl, hXB, ht, hB, rfl⟩))
          · rw [if_neg hB] at h; cases h
  · rw [if_neg hk] at h
    cases h
    exact Or.inl ⟨by simpa using hk, rfl⟩

/-! ## Invariant preservation -/

theorem except_bind_ok {ε α β : Type} {x : Except ε α} {f : α → Except ε β} {v : β}
    (h : x.bind f = .ok v) : ∃ a, x = .ok a ∧ f a = .ok v := by
  cases x with
  | error e => exact absurd h (by simp [Except.bind])
  | ok a => exact ⟨a, rfl, h⟩

theorem new_node_bOpen (e : TraceEvent) (par : Option Nat) (hB : e.ph = "B") :
    (_createNewTaskNode e par).endTime = none := by
  unfold _createNewTaskNode
  have : ¬(e.ph = "X") := by rw [hB]; decide
  simp [this]

theorem sinv_root (st : BuildState) (e : TraceEvent) (inv : SInv st) :
    SInv ⟨st.tasks ++ [_createNewTaskNode e none], [st.tasks.length]⟩ := by
  constructor
  · intro i h p hp
    rw [getElem_append_one] at hp
    by_cases h2 : i < st.tasks.length
    · rw [dif_pos h2] at hp
      exact inv.pLt i h2 p hp
    · rw [dif_neg h2] at hp
      exact absurd hp (by simp [_createNewTaskNode])
  · intro i h j hj
    rw [getElem_append_one] at hj
    by_cases h2 : i < st.tasks.length
    · rw [dif_pos h2] at hj
      have := inv.cBound i h2 j hj
      constructor
      · exact this.1
      · simp only [List.length_append, List.length_singleton]
        omega
    · rw [dif_neg h2] at hj
      exact absurd hj (by simp [_createNewTaskNode])
  · intro i hi
    simp only [List.mem_singleton] at hi
    subst hi
    simp
  · exact List.pairwise_singleton _ _
  · intro i hi h hB
    simp only [List.mem_singleton] at hi
    subst hi
    rw [getElem_append_one] at hB ⊢
    rw [dif_neg (by omega)] at hB ⊢
    exact new_node_bOpen e none (by simpa [_createNewTaskNode] using hB)

theorem getElem_setappend_lt (l : List TaskNode) (c : Nat) (m nw : TaskNode) (i : Nat)
    (hi : i < l.length) (h : i < (l.set c m ++ [nw]).length) :
    (l.set c m ++ [nw])[i] = if c = i then m else l[i] := by
  rw [List.getElem_append_left (by rw [List.length_set]; exact hi), List.getElem_set]

theorem getElem_setappend_last (l : List TaskNode) (c : Nat) (m nw : TaskNode)
    (h : l.length < (l.set c m ++ [nw]).length) :
    (l.set c m ++ [nw])[l.length] = nw := by
  rw [List.getElem_append_right (by rw [List.length_set])]
  simp [List.length_set]

theorem sinv_child (st : BuildState) (e : TraceEvent) (cur : Nat) (rest : List Nat)
    (inv : SInv st) (hc : closeOut st.tasks e.ts st.stack = cur :: rest) :
    SInv ⟨addChildTask st.tasks cur e, st.tasks.length :: cur :: rest⟩ := by
  have hmemStack : ∀ x ∈ cur :: rest, x ∈ st.stack := by
    intro x hx
    exact closeOut_subset st.tasks e.ts st.stack x (hc ▸ hx)
  have hcur : cur < st.tasks.length := inv.sBound cur (hmemStack cur (by simp))
  have hpair : (cur :: rest).Pairwise (fun a c => c < a) :=
    hc ▸ closeOut_pairwise st.tasks e.ts st.stack inv.sDec
  have hrestlt : ∀ x ∈ rest, x < cur := by
    intro x hx
    exact (List.pairwise_cons.mp hpair).1 x hx
  rw [addChildTask_eq st.tasks cur e hcur]
  set n := st.tasks.length with hn
  set m : TaskNode :=
    { st.tasks[cur] with children := st.tasks[cur].children ++ [n] } with hm
  set nw := _createNewTaskNode e (some cur) with hnw
  have hTlen : (st.tasks.set cur m ++ [nw]).length = n + 1 := by
    simp [List.length_set, hn]
  refine ⟨?_, ?_, ?_, ?_, ?_⟩
  · intro i h p hp
    rw [hTlen] at h
    by_cases hin : i < n
    · rw [getElem_setappend_lt st.tasks cur m nw i hin] at hp
      by_cases hic : cur = i
      · subst hic
        rw [if_pos rfl] at hp
        exact inv.pLt cur hcur p (by simpa [hm] using hp)
      · rw [if_neg hic] at hp
        exact inv.pLt i hin p hp
    · have hieq : i = n := by omega
      subst hieq
      rw [getElem_setappend_last] at hp
      have : cur = p := by simpa [hnw, _createNewTaskNode] using hp
      omega
  · intro i h j hj
    rw [hTlen] at h
    rw [hTlen]
    by_cases hin : i < n
    · rw [getElem_setappend_lt st.tasks cur m nw i hin] at hj
      by_cases hic : cur = i
      · subst hic
        rw [if_pos rfl] at hj
        simp only [hm, List.mem_append, List.mem_singleton] at hj
        rcases hj with hj | hj
        · have := inv.cBound cur hcur j hj
          omega
        · omega
      · rw [if_neg hic] at hj
        have := inv.cBound i hin j hj
        omega
    · have hieq : i = n := by omega
      subst hieq
      rw [getElem_setappend_last] at hj
      exact absurd hj (by simp [hnw, _createNewTaskNode])
  · intro i hi
    rw [hTlen]
    simp only [List.mem_cons] at hi
    rcases hi with rfl | rfl | hi
    · omega
    · omega
    · have := inv.sBound i (hmemStack i (by simp [hi]))
      omega
  · rw [List.pairwise_cons]
    refine ⟨?_, hpair⟩
    intro x hx
    simp only [List.mem_cons] at hx
    rcases hx with rfl | hx
    · exact hcur
    · have := inv.sBound x (hmemStack x (by simp [hx]))
      omega
  · intro i hi h hB
    simp only [List.mem_cons] at hi
    rcases hi with rfl | rfl | hi
    · rw [getElem_setappend_last] at hB ⊢
      exact new_node_bOpen e (some cur) (by simpa [hnw, _createNewTaskNode] using hB)
    · rw [getElem_setappend_lt st.tasks i m nw i hcur] at hB ⊢
      rw [if_pos rfl] at hB ⊢
      have hBm : st.tasks[i].event.ph = "B" := by simpa [hm] using hB
      have hnone := inv.sBOpen i (hmemStack i (by simp)) hcur hBm
      simp [hm, hnone]
    · have hil : i < n := inv.sBound i (hmemStack i (by simp [hi]))
      rw [getElem_setappend_lt st.tasks cur m nw i hil] at hB ⊢
      have hic : ¬(cur = i) := by
        have := hrestlt i hi
        omega
      rw [if_neg hic] at hB ⊢
      exact inv.sBOpen i (hmemStack i (by simp [hi])) hil hB

theorem sinv_end (st : BuildState) (e : TraceEvent) (cur : Nat) (rest : List Nat)
    (t : TaskNode) (inv : SInv st) (hc : closeOut st.tasks e.ts st.stack = cur :: rest)
    (ht : st.tasks[cur]? = some t) :
    SInv ⟨st.tasks.set cur { t with endTime := some e.ts }, rest⟩ := by
  have hmemStack : ∀ x ∈ cur :: rest, x ∈ st.stack := by
    intro x hx
    exact closeOut_subset st.tasks e.ts st.stack x (hc ▸ hx)
  have hpair : (cur :: rest).Pairwise (fun a c => c < a) :=
    hc ▸ closeOut_pairwise st.tasks e.ts st.stack inv.sDec
  have hrestlt : ∀ x ∈ rest, x < cur := by
    intro x hx
    exact (List.pairwise_cons.mp hpair).1 x hx
  have hcur : cur < st.tasks.length := inv.sBound cur (hmemStack cur (by simp))
  have htt : t = st.tasks[cur] := by
    rw [List.getElem?_eq_getElem hcur] at ht
    exact (Option.some.injEq _ _ ▸ ht).symm
  constructor
  · intro i h p hp
    rw [List.getElem_set] at hp
    by_cases hic : cur = i
    · subst hic
      rw [if_pos rfl] at hp
      exact inv.pLt cur hcur p (by rw [← htt]; exact hp)
    · rw [if_neg hic] at hp
      exact inv.pLt i (by simpa using h) p hp
  · intro i h j hj
    simp only [List.length_set] at h ⊢
    rw [List.getElem_set] at hj
    by_cases hic : cur = i
    · subst hic
      rw [if_pos rfl] at hj
      exact inv.cBound cur hcur j (by rw [← htt]; exact hj)
    · rw [if_neg hic] at hj
      exact inv.cBound i h j hj
  · intro i hi
    simp only [List.length_set]
    exact inv.sBound i (hmemStack i (by simp [hi]))
  · exact (List.pairwise_cons.mp hpair).2
  · intro i hi h hB
    rw [List.getElem_set] at hB ⊢
    have hic : ¬(cur = i) := by
      have := hrestlt i hi
      omega
    rw [if_neg hic] at hB ⊢
    exact inv.sBOpen i (hmemStack i (by simp [hi])) (by simpa using h) hB

theorem processEvent_sinv {anchor : TraceEvent} {st : BuildState} {e : TraceEvent}
    {st' : BuildState} (h : processEvent anchor st e = .ok st') (inv : SInv st) :
    SInv st' := by
  rcases processEvent_ok_cases h with
    ⟨-, rfl⟩ | ⟨-, hc, -, rfl⟩ | ⟨cur, rest, -, hc, -, rfl⟩ |
    ⟨cur, rest, t, -, hc, -, ht, hB, rfl⟩
  · exact inv
  · exact sinv_root st e inv
  · exact sinv_child st e cur rest inv hc
  · exact sinv_end st e cur rest t inv hc ht

theorem runEvents_sinv {anchor : TraceEvent} :
    ∀ (evts : List TraceEvent) (st st' : BuildState),
      runEvents anchor evts st = .ok st' → SInv st → SInv st' := by
  intro evts
  induction evts with
  | nil =>
    intro st st' h inv
    rw [runEvents_nil] at h
    cases h
    exact inv
  | cons e l ih =>
    intro st st' h inv
    rw [runEvents_cons] at h
    obtain ⟨mid, hmid, hrest⟩ := except_bind_ok h
    exact ih mid st' hrest (processEvent_sinv hmid inv)

theorem sinv_initial : SInv ⟨[], []⟩ := by
  refine ⟨?_, ?_, ?_, ?_, ?_⟩
  · intro i h p hp; simp at h
  · intro i h j hj; simp at h
  · intro i hi; simp at hi
  · simp
  · intro i hi h hB; simp at hi

/-! ## Decomposition of successful runs -/

theorem createTasks_ok_elim {evts : List TraceEvent} {built : List TaskNode}
    (h : _createTasksFromEvents evts = .ok built) :
    ∃ anchor stack, findTracingStartedEvt evts = .ok anchor ∧
      runEvents anchor evts ⟨[], []⟩ = .ok ⟨built, stack⟩ := by
  unfold _createTasksFromEvents at h
  cases ha : findTracingStartedEvt evts with
  | error e => rw [ha] at h; exact absurd h (by simp [Bind.bind, Except.bind])
  | ok anchor =>
    rw [ha] at h
    simp only [Bind.bind, Except.bind] at h
    cases hr : runEvents anchor evts ⟨[], []⟩ with
    | error e => rw [hr] at h; exact absurd h (by simp [Except.bind])
    | ok st =>
      rw [hr] at h
      simp only [Except.bind, pure, Except.pure, Except.ok.injEq] at h
      exact ⟨anchor, st.stack, rfl, by rw [hr, ← h]⟩

theorem built_sinv {evts : List TraceEvent} {built : List TaskNode}
    (h : _createTasksFromEvents evts = .ok built) :
    ∃ stack, SInv ⟨built, stack⟩ := by
  obtain ⟨anchor, stack, -, hr⟩ := createTasks_ok_elim h
  exact ⟨stack, runEvents_sinv evts ⟨[], []⟩ ⟨built, stack⟩ hr sinv_initial⟩

theorem firstStartTime_selfPass (tasks : List TaskNode) :
    firstStartTime (computeSelfTimesPass tasks) = firstStartTime tasks := by
  cases tasks <;> rfl

theorem firstStartTime_urlPass (tasks : List TaskNode) :
    firstStartTime (computeURLsPass tasks) = firstStartTime tasks := by
  cases tasks <;> rfl

theorem firstStartTime_groupPass (tasks : List TaskNode) :
    firstStartTime (computeGroupsPass tasks) = firstStartTime tasks := by
  cases tasks <;> rfl

/-- Every field of every node of a successful result, in terms of the built
(raw) arena. -/
theorem out_decomp {evts : List TraceEvent} {out : List TaskNode}
    (h : getMainThreadTasks evts = .ok out) :
    ∃ built, _createTasksFromEvents evts = .ok built ∧
      ParentLt built ∧ ChildrenBound built ∧
      out.length = built.length ∧
      (∀ i (h1 : i < out.length) (h2 : i < built.length),
        out[i].event = built[i].event ∧
        out[i].parent = built[i].parent ∧
        out[i].children = built[i].children ∧
        out[i].startTime = (built[i].startTime - firstStartTime built) / 1000 ∧
        out[i].endTime = (built[i].endTime.map fun x => (x - firstStartTime built) / 1000) ∧
        out[i].duration = ((nodeDuration built[i]).map (· / 1000)) ∧
        out[i].selfTime =
          ((qSub (nodeDuration built[i]) (childTime built built[i])).map (· / 1000)) ∧
        out[i].attributableURL = finalURL (computeSelfTimesPass built) i ∧
        out[i].group = finalGroup (computeURLsPass (computeSelfTimesPass built)) i) ∧
      (out.all fun t => t.selfTime.isSome) = true := by
  obtain ⟨built, hb, hout, hall⟩ := getMainThreadTasks_ok_elim h
  obtain ⟨stack, inv⟩ := built_sinv hb
  have hl1 : (computeSelfTimesPass built).length = built.length := length_computeSelfTimesPass built
  have hl2 : (computeURLsPass (computeSelfTimesPass built)).length = built.length := by
    rw [length_computeURLsPass, hl1]
  have hl3 : (computeGroupsPass (computeURLsPass (computeSelfTimesPass built))).length
      = built.length := by
    rw [length_computeGroupsPass, hl2]
  have hlen : out.length = built.length := by
    rw [hout, length_normalizeTimes, hl3]
  have hfirst : firstStartTime (computeGroupsPass (computeURLsPass (computeSelfTimesPass built)))
      = firstStartTime built := by
    rw [firstStartTime_groupPass, firstStartTime_urlPass, firstStartTime_selfPass]
  refine ⟨built, hb, inv.pLt, inv.cBound, hlen, ?_, hall⟩
  intro i h1 h2
  have hi3 : i < (computeGroupsPass (computeURLsPass (computeSelfTimesPass built))).length := by
    rw [hl3]; exact h2
  have hi2 : i < (computeURLsPass (computeSelfTimesPass built)).length := by
    rw [hl2]; exact h2
  have hi1 : i < (computeSelfTimesPass built).length := by
    rw [hl1]; exact h2
  have houtLen : i < (normalizeTimes
      (computeGroupsPass (computeURLsPass (computeSelfTimesPass built)))).length := by
    rw [length_normalizeTimes, hl3]; exact h2
  have hgi : (out : List TaskNode)[i] =
      (normalizeTimes (computeGroupsPass (computeURLsPass (computeSelfTimesPass built))))[i] := by
    congr 1
  rw [hgi, getElem_normalizeTimes _ i houtLen hi3,
    getElem_computeGroupsPass _ i hi3 hi2, getElem_computeURLsPass _ i hi2 hi1,
    getElem_computeSelfTimesPass _ i hi1 h2, hfirst]
  refine ⟨rfl, rfl, rfl, rfl, rfl, rfl, rfl, rfl, rfl⟩

/-! ## Option-arithmetic helper lemmas -/

theorem qSub_eq_some {a c : Option ℚ} {r : ℚ} (h : qSub a c = some r) :
    ∃ x y, a = some x ∧ c = some y ∧ r = x - y := by
  cases a with
  | none => cases c <;> exact Option.noConfusion h
  | some x =>
    cases c with
    | none => exact Option.noConfusion h
    | some y =>
      simp only [qSub, Option.some.injEq] at h
      exact ⟨x, y, rfl, rfl, h.symm⟩

theorem foldl_qAdd_none (l : List (Option ℚ)) : l.foldl qAdd none = none := by
  induction l with
  | nil => rfl
  | cons x xs ih =>
    have : qAdd none x = none := by cases x <;> rfl
    rw [List.foldl_cons, this, ih]

theorem foldl_qAdd_div (l : List (Option ℚ)) :
    ∀ (acc r : ℚ), l.foldl qAdd (some acc) = some r →
      (l.map (Option.map (· / 1000))).foldl qAdd (some (acc / 1000)) = some (r / 1000) := by
  induction l with
  | nil =>
    intro acc r h
    simp only [List.foldl_nil, Option.some.injEq] at h
    rw [h]
    rfl
  | cons x xs ih =>
    intro acc r h
    cases x with
    | none =>
      rw [List.foldl_cons] at h
      have : qAdd (some acc) none = none := rfl
      rw [this, foldl_qAdd_none] at h
      cases h
    | some v =>
      rw [List.foldl_cons] at h
      have hstep : qAdd (some acc) (some v) = some (acc + v) := rfl
      rw [hstep] at h
      have := ih (acc + v) r h
      rw [List.map_cons, List.foldl_cons]
      have hstep2 : qAdd (some (acc / 1000)) (Option.map (· / 1000) (some v))
          = some ((acc + v) / 1000) := by
        show some (acc / 1000 + v / 1000) = some ((acc + v) / 1000)
        rw [div_add_div_same]
      rw [hstep2]
      exact this

theorem optSum_div {l : List (Option ℚ)} {r : ℚ} (h : optSum l = some r) :
    optSum (l.map (Option.map (· / 1000))) = some (r / 1000) := by
  have := foldl_qAdd_div l 0 r h
  rw [optSum]
  simpa using this

/-! ## Claim theorems -/

/-- C4: in every successful result, a node's final attributable URL is the
parent's final attributable URL when the parent has one, and only otherwise
the node's own candidate (payload URL, else first stack-frame URL, else
unresolved); roots take their own candidate. -/
theorem attribution_parent_first {evts : List TraceEvent} {out : List TaskNode}
    (h : getMainThreadTasks evts = .ok out) :
    ∀ i (h1 : i < out.length),
      (∀ p, out[i].parent = some p →
        ∃ hp : p < out.length,
          out[i].attributableURL = jsOrStr out[p].attributableURL (taskURLOf out[i].event)) ∧
      (out[i].parent = none → out[i].attributableURL = taskURLOf out[i].event) := by
  obtain ⟨built, hb, hpLt, hcB, hlen, hfields, hall⟩ := out_decomp h
  intro i h1
  have h2 : i < built.length := hlen ▸ h1
  obtain ⟨hev, hpar, -, -, -, -, -, hurl, -⟩ := hfields i h1 h2
  have hi1 : i < (computeSelfTimesPass built).length := by
    rw [length_computeSelfTimesPass]; exact h2
  have ha1par : (computeSelfTimesPass built)[i].parent = built[i].parent := by
    rw [getElem_computeSelfTimesPass built i hi1 h2]
  have ha1ev : (computeSelfTimesPass built)[i].event = built[i].event := by
    rw [getElem_computeSelfTimesPass built i hi1 h2]
  constructor
  · intro p hp
    have hbp : built[i].parent = some p := by rw [← hpar]; exact hp
    have hplt : p < i := hpLt i h2 p hbp
    have hpOut : p < out.length := lt_trans hplt h1
    refine ⟨hpOut, ?_⟩
    have hp2 : p < built.length := hlen ▸ hpOut
    obtain ⟨-, -, -, -, -, -, -, hurlp, -⟩ := hfields p hpOut hp2
    rw [hurl, hurlp, hev,
      finalURL_child (computeSelfTimesPass built) i p hi1 (by rw [ha1par]; exact hbp) hplt,
      ha1ev]
  · intro hnone
    have hbn : built[i].parent = none := by rw [← hpar]; exact hnone
    rw [hurl, hev,
      finalURL_root (computeSelfTimesPass built) i hi1 (by rw [ha1par]; exact hbn), ha1ev]

unseal Rat.add Rat.sub Rat.mul Rat.inv in
/-- C4 witness: Scenario D — a root with payload URL `a.js` and a child whose
own stack frame points at `b.js`; the theorem applies and the child indeed
carries the parent's URL. -/
theorem attribution_parent_first_witness :
    ∃ out, getMainThreadTasks urlPrecedenceEvents = .ok out ∧
      (∀ i (h1 : i < out.length),
        (∀ p, out[i].parent = some p →
          ∃ hp : p < out.length,
            out[i].attributableURL = jsOrStr out[p].attributableURL (taskURLOf out[i].event)) ∧
        (out[i].parent = none → out[i].attributableURL = taskURLOf out[i].event)) ∧
      (∃ h1 : 1 < out.length,
        out[1].attributableURL = some "https://example.com/a.js" ∧
        taskURLOf out[1].event = some "https://example.com/b.js") :=
  ⟨(getMainThreadTasks urlPrecedenceEvents).toOption.getD [], by decide,
    @attribution_parent_first urlPrecedenceEvents
      ((getMainThreadTasks urlPrecedenceEvents).toOption.getD []) (by decide),
    by decide⟩

/-- C5: in every successful result, every node satisfies
`duration = Σ(children durations) + selfTime` and
`duration = endTime - startTime`, and every self-time is finite. -/
theorem aggregation_selftime {evts : List TraceEvent} {out : List TaskNode}
    (h : getMainThreadTasks evts = .ok out) :
    ∀ i (h1 : i < out.length),
      out[i].duration = qAdd (sumChildDur out out[i]) out[i].selfTime ∧
      out[i].duration = qSub out[i].endTime (some out[i].startTime) ∧
      (out[i].selfTime).isSome = true := by
  obtain ⟨built, hb, hpLt, hcB, hlen, hfields, hall⟩ := out_decomp h
  intro i h1
  have h2 : i < built.length := hlen ▸ h1
  obtain ⟨hev, hpar, hch, hst, hen, hdur, hself, -, -⟩ := hfields i h1 h2
  have hsome : (out[i].selfTime).isSome = true :=
    List.all_eq_true.mp hall _ (List.getElem_mem h1)
  have hsome2 : (qSub (nodeDuration built[i]) (childTime built built[i])).isSome = true := by
    cases hq : qSub (nodeDuration built[i]) (childTime built built[i]) with
    | none => rw [hself, hq] at hsome; simp at hsome
    | some v => rfl
  obtain ⟨st0, hqs⟩ := Option.isSome_iff_exists.mp hsome2
  obtain ⟨d, c, hD, hC, hst0⟩ := qSub_eq_some hqs
  have hD2 : qSub built[i].endTime (some built[i].startTime) = some d := by
    rw [← nodeDuration]; exact hD
  obtain ⟨en, s0, hEn, hS0, hd⟩ := qSub_eq_some hD2
  have hs0 : s0 = built[i].startTime := by
    simpa using hS0.symm
  subst hs0
  refine ⟨?_, ?_, hsome⟩
  · -- duration = Σ children + selfTime
    have hsum : sumChildDur out out[i] = some (c / 1000) := by
      rw [sumChildDur, hch]
      have hmapeq : (built[i].children.map fun j => (out[j]?).bind TaskNode.duration)
          = (childDurations built built[i]).map (Option.map (· / 1000)) := by
        rw [childDurations, List.map_map]
        apply List.map_congr_left
        intro j hj
        have hjb := hcB i h2 j hj
        have hjo : j < out.length := by omega
        obtain ⟨-, -, -, -, -, hdurj, -, -, -⟩ := hfields j hjo (by omega)
        rw [List.getElem?_eq_getElem hjo]
        show out[j].duration = Option.map (· / 1000)
          (match built[j]? with
            | some cnode => nodeDuration cnode
            | none => none)
        rw [List.getElem?_eq_getElem (show j < built.length by omega)]
        exact hdurj
      rw [hmapeq]
      have hCsum : optSum (childDurations built built[i]) = some c := by
        rw [← childTime]; exact hC
      exact optSum_div hCsum
    rw [hsum, hself, hqs, hdur, hD]
    show Option.map (· / 1000) (some d) = qAdd (some (c / 1000)) (some (st0 / 1000))
    show some (d / 1000) = some (c / 1000 + st0 / 1000)
    rw [div_add_div_same]
    have : c + st0 = d := by rw [hst0]; ring
    rw [this]
  · -- duration = endTime - startTime
    rw [hdur, hD, hen, hEn, hst]
    show some (d / 1000) = qSub (some ((en - firstStartTime built) / 1000))
      (some ((built[i].startTime - firstStartTime built) / 1000))
    show some (d / 1000) = some ((en - firstStartTime built) / 1000
      - (built[i].startTime - firstStartTime built) / 1000)
    rw [div_sub_div_same, sub_sub_sub_cancel_right, hd]

unseal Rat.add Rat.sub Rat.mul Rat.inv in
/-- C5 witness: the theorem applied to Scenario A's four-event trace. -/
theorem aggregation_selftime_witness :
    ∃ out, getMainThreadTasks scenarioAEvents = .ok out ∧
      ∀ i (h1 : i < out.length),
        out[i].duration = qAdd (sumChildDur out out[i]) out[i].selfTime ∧
        out[i].duration = qSub out[i].endTime (some out[i].startTime) ∧
        (out[i].selfTime).isSome = true :=
  ⟨(getMainThreadTasks scenarioAEvents).toOption.getD [], by decide,
    @aggregation_selftime scenarioAEvents
      ((getMainThreadTasks scenarioAEvents).toOption.getD []) (by decide)⟩

unseal Rat.add Rat.sub Rat.mul Rat.inv in
/-- C2 counterexample: a nested `Layout` Complete event under an
`EvaluateScript` event.  The parent's final category is ScriptEvaluation
(and is set), yet the child's final category is its own StyleLayout, not the
parent's — the claimed parent-first precedence fails. -/
theorem classification_parent_first_cex :
    ∃ out, getMainThreadTasks categoryCexEvents = .ok out ∧
      ∃ h1 : 1 < out.length, ∃ h0 : 0 < out.length,
        out[1].parent = some 0 ∧
        out[0].group = some taskGroups.ScriptEvaluation ∧
        out[1].group = some taskGroups.StyleLayout ∧
        ¬out[1].group = out[0].group :=
  ⟨(getMainThreadTasks categoryCexEvents).toOption.getD [], by decide, by decide⟩

/-- C2 amended: in every successful result, a node's final category is its
own reverse-lookup category when its event name is mapped, otherwise the
parent's final category, otherwise unset (no group at all — the source's
`taskGroups.other` fallback names a nonexistent lowercase key and is
`undefined`; the capital-O Other group is never the default). -/
theorem classification_own_first {evts : List TraceEvent} {out : List TaskNode}
    (h : getMainThreadTasks evts = .ok out) :
    ∀ i (h1 : i < out.length),
      (∀ p, out[i].parent = some p →
        ∃ hp : p < out.length,
          out[i].group = jsOrGroup (taskNameToGroup out[i].event.name) out[p].group) ∧
      (out[i].parent = none → out[i].group = taskNameToGroup out[i].event.name) := by
  obtain ⟨built, hb, hpLt, hcB, hlen, hfields, hall⟩ := out_decomp h
  intro i h1
  have h2 : i < built.length := hlen ▸ h1
  obtain ⟨hev, hpar, -, -, -, -, -, -, hgrp⟩ := hfields i h1 h2
  have hi1 : i < (computeSelfTimesPass built).length := by
    rw [length_computeSelfTimesPass]; exact h2
  have hi2 : i < (computeURLsPass (computeSelfTimesPass built)).length := by
    rw [length_computeURLsPass]; exact hi1
  have ha2par : (computeURLsPass (computeSelfTimesPass built))[i].parent = built[i].parent := by
    rw [getElem_computeURLsPass _ i hi2 hi1, getElem_computeSelfTimesPass built i hi1 h2]
  have ha2ev : (computeURLsPass (computeSelfTimesPass built))[i].event = built[i].event := by
    rw [getElem_computeURLsPass _ i hi2 hi1, getElem_computeSelfTimesPass built i hi1 h2]
  constructor
  · intro p hp
    have hbp : built[i].parent = some p := by rw [← hpar]; exact hp
    have hplt : p < i := hpLt i h2 p hbp
    have hpOut : p < out.length := lt_trans hplt h1
    refine ⟨hpOut, ?_⟩
    have hp2 : p < built.length := hlen ▸ hpOut
    obtain ⟨-, -, -, -, -, -, -, -, hgrpp⟩ := hfields p hpOut hp2
    rw [hgrp, hgrpp, hev,
      finalGroup_child (computeURLsPass (computeSelfTimesPass built)) i p hi2
        (by rw [ha2par]; exact hbp) hplt,
      ha2ev]
  · intro hnone
    have hbn : built[i].parent = none := by rw [← hpar]; exact hnone
    rw [hgrp, hev,
      finalGroup_root (computeURLsPass (computeSelfTimesPass built)) i hi2
        (by rw [ha2par]; exact hbn),
      ha2ev]

unseal Rat.add Rat.sub Rat.mul Rat.inv in
/-- C2 amended witness: the amended rule applied to the Layout-under-
EvaluateScript trace. -/
theorem classification_own_first_witness :
    ∃ out, getMainThreadTasks categoryCexEvents = .ok out ∧
      ∀ i (h1 : i < out.length),
        (∀ p, out[i].parent = some p →
          ∃ hp : p < out.length,
            out[i].group = jsOrGroup (taskNameToGroup out[i].event.name) out[p].group) ∧
        (out[i].parent = none → out[i].group = taskNameToGroup out[i].event.name) :=
  ⟨(getMainThreadTasks categoryCexEvents).toOption.getD [], by decide,
    @classification_own_first categoryCexEvents
      ((getMainThreadTasks categoryCexEvents).toOption.getD []) (by decide)⟩

/-- C9 counterexample: the reverse lookup does map an explicit event name to
the Other group — the taxonomy lists three scheduler task names under it. -/
theorem other_explicitly_populated :
    taskNameToGroup "MessageLoop::RunTask" = some taskGroups.Other ∧
    taskNameToGroup "TaskQueueManager::ProcessTaskFromWorkQueue" = some taskGroups.Other ∧
    taskNameToGroup "ThreadControllerImpl::DoWork" = some taskGroups.Other := by decide

theorem lookup_eq_none_of_not_mem_keys {α β : Type} [BEq α] [LawfulBEq α]
    (l : List (α × β)) (k : α) (h : ¬k ∈ l.map Prod.fst) : l.lookup k = none := by
  induction l with
  | nil => rfl
  | cons x xs ih =>
    simp only [List.map_cons, List.mem_cons] at h
    push_neg at h
    rw [List.lookup]
    have : (k == x.1) = false := beq_false_of_ne h.1
    rw [this]
    exact ih h.2

/-- C9 amended: the reverse lookup maps an event name to the Other group
exactly when the name is one of the three scheduler-task names the taxonomy
lists under Other. -/
theorem taskNameToGroup_other_iff (name : String) :
    taskNameToGroup name = some taskGroups.Other ↔
      (name = "MessageLoop::RunTask" ∨
       name = "TaskQueueManager::ProcessTaskFromWorkQueue" ∨
       name = "ThreadControllerImpl::DoWork") := by
  by_cases hmem : name ∈ nameGroupPairs.map Prod.fst
  · have hall : ∀ n ∈ nameGroupPairs.map Prod.fst,
        (taskNameToGroup n = some taskGroups.Other ↔
          (n = "MessageLoop::RunTask" ∨
           n = "TaskQueueManager::ProcessTaskFromWorkQueue" ∨
           n = "ThreadControllerImpl::DoWork")) := by decide
    exact hall name hmem
  · have hnone : taskNameToGroup name = none :=
      lookup_eq_none_of_not_mem_keys nameGroupPairs name hmem
    constructor
    · intro hcontra
      rw [hnone] at hcontra
      cases hcontra
    · intro h3
      exfalso
      apply hmem
      rcases h3 with rfl | rfl | rfl <;> decide

unseal Rat.add Rat.sub Rat.mul Rat.inv in
/-- C1: Scenario A — the marker plus four events yield exactly three tasks:
TaskA a root with duration 100ms, self-time 50ms and single child TaskB;
TaskB start 5ms, end 55ms, duration 50ms, self-time 20ms, parent TaskA,
single child TaskC; TaskC start 10ms, end 40ms, duration 30ms, self-time
30ms, parent TaskB, no children. -/
theorem scenarioA_main_thread_tasks :
    getMainThreadTasks scenarioAEvents = .ok scenarioAResult ∧
    scenarioAResult.length = 3 ∧
    scenarioAResult[0].event.name = "TaskA" ∧
    scenarioAResult[0].parent = none ∧
    scenarioAResult[0].duration = some 100 ∧
    scenarioAResult[0].selfTime = some 50 ∧
    scenarioAResult[0].children = [1] ∧
    scenarioAResult[1].event.name = "TaskB" ∧
    scenarioAResult[1].startTime = 5 ∧
    scenarioAResult[1].endTime = some 55 ∧
    scenarioAResult[1].duration = some 50 ∧
    scenarioAResult[1].selfTime = some 20 ∧
    scenarioAResult[1].parent = some 0 ∧
    scenarioAResult[1].children = [2] ∧
    scenarioAResult[2].event.name = "TaskC" ∧
    scenarioAResult[2].startTime = 10 ∧
    scenarioAResult[2].endTime = some 40 ∧
    scenarioAResult[2].duration = some 30 ∧
    scenarioAResult[2].selfTime = some 30 ∧
    scenarioAResult[2].parent = some 1 ∧
    scenarioAResult[2].children = [] := by decide

/-- C8: on every successful run the output times are the pre-normalization
microsecond times rebased to the first task's start — which is a root — and
scaled to milliseconds; an empty forest uses zero as the base. -/
theorem normalizer_rebase {evts : List TraceEvent} {out pre : List TaskNode}
    (h1 : getMainThreadTasks evts = .ok out)
    (h2 : preNormalizedTasks evts = .ok pre) :
    out.length = pre.length ∧
    (∀ h0 : 0 < pre.length, pre[0].parent = none) ∧
    (pre = [] → firstStartTime pre = 0) ∧
    ∀ i (ho : i < out.length) (hp : i < pre.length),
      out[i].startTime = (pre[i].startTime - firstStartTime pre) / 1000 ∧
      out[i].endTime = (pre[i].endTime.map fun x => (x - firstStartTime pre) / 1000) ∧
      out[i].duration = pre[i].duration.map (· / 1000) ∧
      out[i].selfTime = pre[i].selfTime.map (· / 1000) := by
  obtain ⟨built, hb, hout, hall⟩ := getMainThreadTasks_ok_elim h1
  have hpre : pre = computeGroupsPass (computeURLsPass (computeSelfTimesPass built)) := by
    unfold preNormalizedTasks at h2
    rw [hb] at h2
    simp only [Except.map, Except.ok.injEq] at h2
    exact h2.symm
  obtain ⟨stack, inv⟩ := built_sinv hb
  have houtpre : out = normalizeTimes pre := by rw [hout, hpre]
  have hlen : out.length = pre.length := by rw [houtpre, length_normalizeTimes]
  refine ⟨hlen, ?_, ?_, ?_⟩
  · intro h0
    have hpl : pre.length = built.length := by
      rw [hpre, length_computeGroupsPass, length_computeURLsPass, length_computeSelfTimesPass]
    have h0b : 0 < built.length := hpl ▸ h0
    have hi1 : 0 < (computeSelfTimesPass built).length := by
      rw [length_computeSelfTimesPass]; exact h0b
    have hi2 : 0 < (computeURLsPass (computeSelfTimesPass built)).length := by
      rw [length_computeURLsPass]; exact hi1
    have hb0 : 0 < (computeGroupsPass (computeURLsPass (computeSelfTimesPass built))).length := by
      rw [← hpre]; exact h0
    have hg0 : pre[0] = (computeGroupsPass (computeURLsPass (computeSelfTimesPass built)))[0] := by
      congr 1
    have hp0 : pre[0].parent = built[0].parent := by
      rw [hg0, getElem_computeGroupsPass _ 0 hb0 hi2,
        getElem_computeURLsPass _ 0 hi2 hi1,
        getElem_computeSelfTimesPass built 0 hi1 h0b]
    rw [hp0]
    cases hc : built[0].parent with
    | none => rfl
    | some p =>
      have := inv.pLt 0 h0b p hc
      omega
  · intro hempty
    rw [hempty]
    rfl
  · intro i ho hp
    have hi : i < (normalizeTimes pre).length := by rw [← houtpre]; exact ho
    have hgi : (out : List TaskNode)[i] = (normalizeTimes pre)[i] := by
      congr 1
    rw [hgi, getElem_normalizeTimes pre i hi hp]
    exact ⟨rfl, rfl, rfl, rfl⟩

unseal Rat.add Rat.sub Rat.mul Rat.inv in
/-- C8 witness: the normalizer theorem applied to Scenario A. -/
theorem normalizer_rebase_witness :
    ∃ out pre, getMainThreadTasks scenarioAEvents = .ok out ∧
      preNormalizedTasks scenarioAEvents = .ok pre ∧
      (out.length = pre.length ∧
        (∀ h0 : 0 < pre.length, pre[0].parent = none) ∧
        (pre = [] → firstStartTime pre = 0) ∧
        ∀ i (ho : i < out.length) (hp : i < pre.length),
          out[i].startTime = (pre[i].startTime - firstStartTime pre) / 1000 ∧
          out[i].endTime = (pre[i].endTime.map fun x => (x - firstStartTime pre) / 1000) ∧
          out[i].duration = pre[i].duration.map (· / 1000) ∧
          out[i].selfTime = pre[i].selfTime.map (· / 1000)) :=
  ⟨(getMainThreadTasks scenarioAEvents).toOption.getD [],
    (preNormalizedTasks scenarioAEvents).toOption.getD [],
    by decide, by decide,
    @normalizer_rebase scenarioAEvents
      ((getMainThreadTasks scenarioAEvents).toOption.getD [])
      ((preNormalizedTasks scenarioAEvents).toOption.getD [])
      (by decide) (by decide)⟩

unseal Rat.add Rat.sub Rat.mul Rat.inv in
/-- C3 counterexample: a Begin task closed at +200ms inside a Complete parent
ending at +100ms.  The run succeeds (self-times are finite, the parent's is
just negative), yet the child's end time exceeds its parent's — interval
containment fails on the end side. -/
theorem containment_cex :
    ∃ out, getMainThreadTasks containmentCexEvents = .ok out ∧
      ∃ h1 : 1 < out.length, ∃ h0 : 0 < out.length,
        out[1].parent = some 0 ∧
        out[1].endTime = some 200 ∧
        out[0].endTime = some 100 ∧
        out[0].startTime ≤ out[1].startTime ∧
        ¬(200 : ℚ) ≤ 100 ∧
        out[0].selfTime = some (-50) :=
  ⟨(getMainThreadTasks containmentCexEvents).toOption.getD [], by decide, by decide⟩

/-! ## Start-time monotonicity (sorted inputs) -/

theorem arenaLe_processEvent {anchor : TraceEvent} {st : BuildState} {e : TraceEvent}
    {st' : BuildState} (h : processEvent anchor st e = .ok st') (inv : SInv st)
    (q : ℚ) (hq : e.ts ≤ q) (hLe : ArenaLe st.tasks q) : ArenaLe st'.tasks q := by
  rcases processEvent_ok_cases h with
    ⟨-, rfl⟩ | ⟨-, hc, -, rfl⟩ | ⟨cur, rest, -, hc, -, rfl⟩ |
    ⟨cur, rest, t, -, hc, -, ht, hB, rfl⟩
  · exact hLe
  · intro i hi
    rw [getElem_append_one]
    by_cases h2 : i < st.tasks.length
    · rw [dif_pos h2]; exact hLe i h2
    · rw [dif_neg h2]
      show e.ts ≤ q
      exact hq
  · have hcur : cur < st.tasks.length :=
      inv.sBound cur (closeOut_subset st.tasks e.ts st.stack cur (hc ▸ List.mem_cons_self _ _))
    rw [addChildTask_eq st.tasks cur e hcur]
    intro i hi
    simp only [List.length_append, List.length_set, List.length_singleton] at hi
    by_cases h2 : i < st.tasks.length
    · rw [getElem_setappend_lt st.tasks cur _ _ i h2]
      by_cases hic : cur = i
      · subst hic
        rw [if_pos rfl]
        exact hLe cur hcur
      · rw [if_neg hic]
        exact hLe i h2
    · have : i = st.tasks.length := by omega
      subst this
      rw [getElem_setappend_last]
      show e.ts ≤ q
      exact hq
  · have hcur : cur < st.tasks.length :=
      inv.sBound cur (closeOut_subset st.tasks e.ts st.stack cur (hc ▸ List.mem_cons_self _ _))
    have htt : t = st.tasks[cur] := by
      rw [List.getElem?_eq_getElem hcur] at ht
      exact (Option.some.injEq _ _ ▸ ht).symm
    intro i hi
    simp only [List.length_set] at hi
    rw [List.getElem_set]
    by_cases hic : cur = i
    · subst hic
      rw [if_pos rfl]
      show t.startTime ≤ q
      rw [htt]
      exact hLe cur hcur
    · rw [if_neg hic]
      exact hLe i hi

theorem startMono_processEvent {anchor : TraceEvent} {st : BuildState} {e : TraceEvent}
    {st' : BuildState} (h : processEvent anchor st e = .ok st') (inv : SInv st)
    (hLe : ArenaLe st.tasks e.ts) (hM : StartMono st.tasks) : StartMono st'.tasks := by
  rcases processEvent_ok_cases h with
    ⟨-, rfl⟩ | ⟨-, hc, -, rfl⟩ | ⟨cur, rest, -, hc, -, rfl⟩ |
    ⟨cur, rest, t, -, hc, -, ht, hB, rfl⟩
  · exact hM
  · intro i j hi hj hij
    rw [getElem_append_one, getElem_append_one]
    by_cases hjL : j < st.tasks.length
    · have hiL : i < st.tasks.length := by omega
      rw [dif_pos hiL, dif_pos hjL]
      exact hM i j hiL hjL hij
    · rw [dif_neg hjL]
      by_cases hiL : i < st.tasks.length
      · rw [dif_pos hiL]
        exact hLe i hiL
      · rw [dif_neg hiL]
  · have hcur : cur < st.tasks.length :=
      inv.sBound cur (closeOut_subset st.tasks e.ts st.stack cur (hc ▸ List.mem_cons_self _ _))
    rw [addChildTask_eq st.tasks cur e hcur]
    have hstEq : ∀ k (hk : k < st.tasks.length)
        (hk2 : k < (st.tasks.set cur
          { st.tasks[cur] with children := st.tasks[cur].children ++ [st.tasks.length] }
          ++ [_createNewTaskNode e (some cur)]).length),
        (st.tasks.set cur
          { st.tasks[cur] with children := st.tasks[cur].children ++ [st.tasks.length] }
          ++ [_createNewTaskNode e (some cur)])[k].startTime = st.tasks[k].startTime := by
      intro k hk hk2
      rw [getElem_setappend_lt st.tasks cur _ _ k hk]
      by_cases hkc : cur = k
      · subst hkc
        rw [if_pos rfl]
      · rw [if_neg hkc]
    intro i j hi hj hij
    have hlen : (st.tasks.set cur
        { st.tasks[cur] with children := st.tasks[cur].children ++ [st.tasks.length] }
        ++ [_createNewTaskNode e (some cur)]).length = st.tasks.length + 1 := by
      simp [List.length_set]
    by_cases hjL : j < st.tasks.length
    · have hiL : i < st.tasks.length := by omega
      rw [hstEq i hiL hi, hstEq j hjL hj]
      exact hM i j hiL hjL hij
    · have hjEq : j = st.tasks.length := by rw [hlen] at hj; omega
      subst hjEq
      rw [getElem_setappend_last]
      by_cases hiL : i < st.tasks.length
      · rw [hstEq i hiL hi]
        exact hLe i hiL
      · have : i = st.tasks.length := by rw [hlen] at hi; omega
        subst this
        rw [getElem_setappend_last]
  · have hcur : cur < st.tasks.length :=
      inv.sBound cur (closeOut_subset st.tasks e.ts st.stack cur (hc ▸ List.mem_cons_self _ _))
    have htt : t = st.tasks[cur] := by
      rw [List.getElem?_eq_getElem hcur] at ht
      exact (Option.some.injEq _ _ ▸ ht).symm
    intro i j hi hj hij
    simp only [List.length_set] at hi hj
    rw [List.getElem_set, List.getElem_set]
    have hstep : ∀ k (hk : k < st.tasks.length),
        (if cur = k then { t with endTime := some e.ts } else st.tasks[k]).startTime
          = st.tasks[k].startTime := by
      intro k hk
      by_cases hkc : cur = k
      · subst hkc
        rw [if_pos rfl]
        show t.startTime = _
        rw [htt]
      · rw [if_neg hkc]
    rw [hstep i hi, hstep j hj]
    exact hM i j hi hj hij

theorem runEvents_startMono {anchor : TraceEvent} :
    ∀ (evts : List TraceEvent) (st st' : BuildState),
      runEvents anchor evts st = .ok st' → SInv st →
      (evts.filter (keepEvent anchor)).Pairwise (fun a c => a.ts ≤ c.ts) →
      (∀ e2 ∈ evts, keepEvent anchor e2 = true → ArenaLe st.tasks e2.ts) →
      StartMono st.tasks → StartMono st'.tasks := by
  intro evts
  induction evts with
  | nil =>
    intro st st' h inv hsorted hLe hM
    rw [runEvents_nil] at h
    cases h
    exact hM
  | cons e l ih =>
    intro st st' h inv hsorted hLe hM
    rw [runEvents_cons] at h
    obtain ⟨mid, hmid, hrest⟩ := except_bind_ok h
    by_cases hk : keepEvent anchor e = true
    · rw [List.filter_cons, if_pos hk] at hsorted
      obtain ⟨he2, htail⟩ := List.pairwise_cons.mp hsorted
      have hLe_e : ArenaLe st.tasks e.ts := hLe e (List.mem_cons_self _ _) hk
      have hM2 := startMono_processEvent hmid inv hLe_e hM
      have hinv2 := processEvent_sinv hmid inv
      refine ih mid st' hrest hinv2 htail ?_ hM2
      intro e2 he2mem hk2
      have hts : e.ts ≤ e2.ts := he2 e2 (List.mem_filter.mpr ⟨he2mem, hk2⟩)
      exact arenaLe_processEvent hmid inv e2.ts hts
        (hLe e2 (List.mem_cons_of_mem _ he2mem) hk2)
    · have hmideq : mid = st := by
        rcases processEvent_ok_cases hmid with
          ⟨-, rfl⟩ | ⟨hk2, -, -, -⟩ | ⟨c2, r2, hk2, -, -, -⟩ | ⟨c2, r2, t2, hk2, -, -, -, -, -⟩
        · rfl
        · exact absurd hk2 hk
        · exact absurd hk2 hk
        · exact absurd hk2 hk
      subst hmideq
      rw [List.filter_cons, if_neg hk] at hsorted
      refine ih mid st' hrest inv hsorted ?_ hM
      intro e2 he2mem hk2
      exact hLe e2 (List.mem_cons_of_mem _ he2mem) hk2

theorem built_startMono {evts : List TraceEvent} {built : List TaskNode}
    (hsort : evts.Pairwise fun a c => a.ts ≤ c.ts)
    (hb : _createTasksFromEvents evts = .ok built) : StartMono built := by
  obtain ⟨anchor, stack, ha, hr⟩ := createTasks_ok_elim hb
  exact runEvents_startMono evts ⟨[], []⟩ ⟨built, stack⟩ hr sinv_initial
    (hsort.filter _) (fun e2 _ _ i hi => by simp at hi) (fun i j hi hj _ => by simp at hi)

/-- C3 amended: for timestamp-sorted inputs, every non-root node starts no
earlier than its parent (start-side containment); end-side containment does
not hold in general (see the counterexample). -/
theorem parent_start_containment {evts : List TraceEvent} {out : List TaskNode}
    (hsort : evts.Pairwise fun a c => a.ts ≤ c.ts)
    (h : getMainThreadTasks evts = .ok out) :
    ∀ i (h1 : i < out.length) p, out[i].parent = some p →
      ∃ hp : p < out.length, out[p].startTime ≤ out[i].startTime := by
  obtain ⟨built, hb, hpLt, hcB, hlen, hfields, hall⟩ := out_decomp h
  have hM := built_startMono hsort hb
  intro i h1 p hp
  have h2 : i < built.length := hlen ▸ h1
  obtain ⟨-, hpar, -, hst, -, -, -, -, -⟩ := hfields i h1 h2
  have hbp : built[i].parent = some p := by rw [← hpar]; exact hp
  have hplt : p < i := hpLt i h2 p hbp
  have hpo : p < out.length := lt_trans hplt h1
  refine ⟨hpo, ?_⟩
  have hp2 : p < built.length := hlen ▸ hpo
  obtain ⟨-, -, -, hstp, -, -, -, -, -⟩ := hfields p hpo hp2
  rw [hst, hstp]
  have hle := hM p i hp2 h2 (le_of_lt hplt)
  have hsub := sub_le_sub_right hle (firstStartTime built)
  exact div_le_div_of_nonneg_right hsub (by norm_num) |>.trans_eq rfl

unseal Rat.add Rat.sub Rat.mul Rat.inv in
/-- C3 amended witness: start-side containment on Scenario A's sorted
trace. -/
theorem parent_start_containment_witness :
    ∃ out, getMainThreadTasks scenarioAEvents = .ok out ∧
      ∀ i (h1 : i < out.length) p, out[i].parent = some p →
        ∃ hp : p < out.length, out[p].startTime ≤ out[i].startTime :=
  ⟨(getMainThreadTasks scenarioAEvents).toOption.getD [], by decide,
    @parent_start_containment scenarioAEvents
      ((getMainThreadTasks scenarioAEvents).toOption.getD []) (by decide) (by decide)⟩

/-! ## Error propagation -/

theorem getMainThreadTasks_error_of_build {evts : List TraceEvent} {err : TraceError}
    (h : _createTasksFromEvents evts = .error err) :
    getMainThreadTasks evts = .error err := by
  unfold getMainThreadTasks
  rw [h]
  rfl

theorem build_error_of_run {evts : List TraceEvent} {anchor : TraceEvent} {err : TraceError}
    (ha : findTracingStartedEvt evts = .ok anchor)
    (h : runEvents anchor evts ⟨[], []⟩ = .error err) :
    _createTasksFromEvents evts = .error err := by
  unfold _createTasksFromEvents
  rw [ha]
  show (runEvents anchor evts ⟨[], []⟩).bind _ = .error err
  rw [h]
  rfl

theorem runEvents_split_error {anchor : TraceEvent} {pre post : List TraceEvent}
    {e : TraceEvent} {st : BuildState} {err : TraceError}
    (hrun : runEvents anchor pre ⟨[], []⟩ = .ok st)
    (hstep : processEvent anchor st e = .error err) :
    runEvents anchor (pre ++ e :: post) ⟨[], []⟩ = .error err := by
  rw [runEvents_append, hrun]
  show runEvents anchor (e :: post) st = .error err
  rw [runEvents_cons, hstep]
  rfl

/-- C6: an End event reaching the reconstruction loop when the close-out step
leaves no open task makes the whole analysis fail with the unbalanced-trace
error; no forest is returned. -/
theorem unbalanced_end_error {evts pre post : List TraceEvent} {e anchor : TraceEvent}
    {st : BuildState}
    (ha : findTracingStartedEvt evts = .ok anchor)
    (hsplit : evts = pre ++ e :: post)
    (hrun : runEvents anchor pre ⟨[], []⟩ = .ok st)
    (hk : keepEvent anchor e = true) (hE : e.ph = "E")
    (hclosed : closeOut st.tasks e.ts st.stack = []) :
    getMainThreadTasks evts = .error .unbalanced := by
  have hstep : processEvent anchor st e = .error .unbalanced := by
    unfold processEvent
    rw [if_pos hk, hclosed]
    dsimp only
    rw [if_pos hE]
  subst hsplit
  exact getMainThreadTasks_error_of_build
    (build_error_of_run ha (runEvents_split_error hrun hstep))

unseal Rat.add Rat.sub Rat.mul Rat.inv in
/-- C6 witness: Scenario B — an End event right after the tracing-start
marker fails with the unbalanced-trace error. -/
theorem unbalanced_end_error_witness :
    getMainThreadTasks unbalancedEvents = .error .unbalanced :=
  @unbalanced_end_error unbalancedEvents
    [⟨"I", "TracingStartedInPage", 1000000, none, 1, 2, noArgs⟩] []
    ⟨"E", "TaskX", 1001000, none, 1, 2, noArgs⟩
    ⟨"I", "TracingStartedInPage", 1000000, none, 1, 2, noArgs⟩
    ⟨[], []⟩ (by decide) (by decide) (by decide) (by decide) (by decide) (by decide)

/-- C7: when an End event reaches the loop and the closed-out current task
exists, the run fails with the mismatched-event error if that task was not
opened by a Begin event; if it was, the event sets the task's end time to its
timestamp and pops the cursor to the task's parent. -/
theorem end_event_semantics {evts pre post : List TraceEvent} {e anchor : TraceEvent}
    {st : BuildState} {cur : Nat} {rest : List Nat}
    (ha : findTracingStartedEvt evts = .ok anchor)
    (hsplit : evts = pre ++ e :: post)
    (hrun : runEvents anchor pre ⟨[], []⟩ = .ok st)
    (hk : keepEvent anchor e = true) (hE : e.ph = "E")
    (hclosed : closeOut st.tasks e.ts st.stack = cur :: rest) :
    ∀ t, st.tasks[cur]? = some t →
      (¬t.event.ph = "B" → getMainThreadTasks evts = .error .mismatched) ∧
      (t.event.ph = "B" →
        processEvent anchor st e =
          .ok ⟨st.tasks.set cur { t with endTime := some e.ts }, rest⟩) := by
  intro t ht
  have hXB : ¬(e.ph = "X" ∨ e.ph = "B") := by
    rw [hE]
    decide
  constructor
  · intro hnB
    have hstep : processEvent anchor st e = .error .mismatched := by
      unfold processEvent
      rw [if_pos hk, hclosed]
      dsimp only
      rw [if_neg hXB, ht]
      dsimp only
      rw [if_neg hnB]
    subst hsplit
    exact getMainThreadTasks_error_of_build
      (build_error_of_run ha (runEvents_split_error hrun hstep))
  · intro hB
    unfold processEvent
    rw [if_pos hk, hclosed]
    dsimp only
    rw [if_neg hXB, ht]
    dsimp only
    rw [if_pos hB]

unseal Rat.add Rat.sub Rat.mul Rat.inv in
/-- C7 witness: an End event arriving while the open task is the Complete
TaskA (whose window has not yet passed) fails with the mismatched-event
error. -/
theorem end_event_semantics_witness :
    getMainThreadTasks mismatchedEvents = .error .mismatched :=
  (@end_event_semantics mismatchedEvents
    [⟨"I", "TracingStartedInPage", 1000000, none, 1, 2, noArgs⟩,
     ⟨"X", "TaskA", 1000000, some 100000, 1, 2, noArgs⟩] []
    ⟨"E", "TaskA", 1050000, none, 1, 2, noArgs⟩
    ⟨"I", "TracingStartedInPage", 1000000, none, 1, 2, noArgs⟩
    ⟨[⟨⟨"X", "TaskA", 1000000, some 100000, 1, 2, noArgs⟩, 1000000, some 1100000,
        none, [], none, none, none, none⟩], [0]⟩
    0 []
    (by decide) (by decide) (by decide) (by decide) (by decide) (by decide)
    ⟨⟨"X", "TaskA", 1000000, some 100000, 1, 2, noArgs⟩, 1000000, some 1100000,
      none, [], none, none, none, none⟩
    (by decide)).1 (by decide)

/-! ## Open-end counting -/

theorem qSub_none_left (x : Option ℚ) : qSub none x = none := by
  cases x <;> rfl

theorem countP_set (p : TaskNode → Bool) :
    ∀ (l : List TaskNode) (i : Nat) (a : TaskNode) (h : i < l.length),
      (l.set i a).countP p + (if p l[i] then 1 else 0)
        = l.countP p + (if p a then 1 else 0) := by
  intro l
  induction l with
  | nil => intro i a h; simp at h
  | cons x xs ih =>
    intro i a h
    cases i with
    | zero =>
      simp only [List.set_cons_zero, List.countP_cons, List.getElem_cons_zero]
      omega
    | succ n =>
      have hn : n < xs.length := by simpa using h
      simp only [List.set_cons_succ, List.countP_cons, List.getElem_cons_succ]
      have := ih n a hn
      omega

theorem processEvent_count {anchor : TraceEvent} {st : BuildState} {e : TraceEvent}
    {st' : BuildState} (h : processEvent anchor st e = .ok st') (inv : SInv st) :
    countOpenEnds st'.tasks + (if keepEvent anchor e && (e.ph == "E") then 1 else 0)
      = countOpenEnds st.tasks + (if keepEvent anchor e && (e.ph == "B") then 1 else 0) := by
  rcases processEvent_ok_cases h with
    ⟨hk, rfl⟩ | ⟨hk, hc, hE, rfl⟩ | ⟨cur, rest, hk, hc, hXB, rfl⟩ |
    ⟨cur, rest, t, hk, hc, hXB, ht, hB, rfl⟩
  · rw [hk]
    simp
  · rcases keepEvent_ph hk with hph | hph | hph
    · rw [hk, hph]
      show countOpenEnds (st.tasks ++ [_createNewTaskNode e none]) + 0
        = countOpenEnds st.tasks + 0
      rw [countOpenEnds, List.countP_append, countOpenEnds]
      have : (_createNewTaskNode e none).endTime.isNone = false := by
        rw [_createNewTaskNode]
        simp [hph]
      simp [List.countP_cons, List.countP_nil, this]
    · rw [hk, hph]
      show countOpenEnds (st.tasks ++ [_createNewTaskNode e none]) + 0
        = countOpenEnds st.tasks + 1
      rw [countOpenEnds, List.countP_append, countOpenEnds]
      have hBnone := new_node_bOpen e none hph
      simp [List.countP_cons, List.countP_nil, hBnone]
    · exact absurd hph hE
  · have hcur : cur < st.tasks.length :=
      inv.sBound cur (closeOut_subset st.tasks e.ts st.stack cur (hc ▸ List.mem_cons_self _ _))
    rw [addChildTask_eq st.tasks cur e hcur]
    have hsetEq : countOpenEnds (st.tasks.set cur
        { st.tasks[cur] with children := st.tasks[cur].children ++ [st.tasks.length] })
        = countOpenEnds st.tasks := by
      have hcs := countP_set (fun tk => tk.endTime.isNone) st.tasks cur
        { st.tasks[cur] with children := st.tasks[cur].children ++ [st.tasks.length] } hcur
      have hsame : ({ st.tasks[cur] with
          children := st.tasks[cur].children ++ [st.tasks.length] } : TaskNode).endTime.isNone
          = st.tasks[cur].endTime.isNone := rfl
      simp only [hsame] at hcs
      rw [countOpenEnds, countOpenEnds]
      exact Nat.add_right_cancel hcs
    rcases hXB with hph | hph
    · rw [hk, hph]
      show countOpenEnds _ + 0 = countOpenEnds st.tasks + 0
      rw [countOpenEnds, List.countP_append, ← countOpenEnds, hsetEq]
      have : (_createNewTaskNode e (some cur)).endTime.isNone = false := by
        rw [_createNewTaskNode]
        simp [hph]
      simp [List.countP_cons, List.countP_nil, this]
    · rw [hk, hph]
      show countOpenEnds _ + 0 = countOpenEnds st.tasks + 1
      rw [countOpenEnds, List.countP_append, ← countOpenEnds, hsetEq]
      have hBnone := new_node_bOpen e (some cur) hph
      simp [List.countP_cons, List.countP_nil, hBnone]
  · have hmem : cur ∈ st.stack :=
      closeOut_subset st.tasks e.ts st.stack cur (hc ▸ List.mem_cons_self _ _)
    have hcur : cur < st.tasks.length := inv.sBound cur hmem
    have htt : t = st.tasks[cur] := by
      rw [List.getElem?_eq_getElem hcur] at ht
      exact (Option.some.injEq _ _ ▸ ht).symm
    have hph : e.ph = "E" := by
      rcases keepEvent_ph hk with hph | hph | hph
      · exact absurd (Or.inl hph) hXB
      · exact absurd (Or.inr hph) hXB
      · exact hph
    have hopen : st.tasks[cur].endTime = none :=
      inv.sBOpen cur hmem hcur (by rw [← htt]; exact hB)
    have hcount := countP_set (fun tk => tk.endTime.isNone) st.tasks cur
      { t with endTime := some e.ts } hcur
    rw [hk, hph]
    show countOpenEnds (st.tasks.set cur { t with endTime := some e.ts }) + 1
      = countOpenEnds st.tasks + 0
    rw [countOpenEnds, countOpenEnds]
    rw [hopen] at hcount
    simp only [Option.isNone_none, if_true] at hcount
    have hnew : ({ t with endTime := some e.ts } : TaskNode).endTime.isNone = false := rfl
    rw [hnew] at hcount
    simp at hcount
    omega

theorem runEvents_count {anchor : TraceEvent} :
    ∀ (evts : List TraceEvent) (st st' : BuildState),
      runEvents anchor evts st = .ok st' → SInv st →
      countOpenEnds st'.tasks + countFilteredPh anchor "E" evts
        = countOpenEnds st.tasks + countFilteredPh anchor "B" evts := by
  intro evts
  induction evts with
  | nil =>
    intro st st' h inv
    rw [runEvents_nil] at h
    cases h
    rfl
  | cons e l ih =>
    intro st st' h inv
    rw [runEvents_cons] at h
    obtain ⟨mid, hmid, hrest⟩ := except_bind_ok h
    have hstep := processEvent_count hmid inv
    have htail := ih mid st' hrest (processEvent_sinv hmid inv)
    simp only [countFilteredPh, List.countP_cons] at htail hstep ⊢
    omega

/-- C10: when the filtered primary-thread sequence has more Begin events than
End events, some Begin-opened task keeps an unresolved end time, so
`getMainThreadTasks` never returns a forest; whenever reconstruction itself
succeeds, the final self-time finiteness gate fails with the invalid-timing
error. -/
theorem unclosed_begin_error {evts : List TraceEvent} {anchor : TraceEvent}
    (ha : findTracingStartedEvt evts = .ok anchor)
    (hcount : countFilteredPh anchor "E" evts < countFilteredPh anchor "B" evts) :
    (∃ err, getMainThreadTasks evts = .error err) ∧
    ∀ built, _createTasksFromEvents evts = .ok built →
      getMainThreadTasks evts = .error .invalidTiming := by
  have hmain : ∀ built, _createTasksFromEvents evts = .ok built →
      getMainThreadTasks evts = .error .invalidTiming := by
    intro built hb
    obtain ⟨anchor2, stack, ha2, hr⟩ := createTasks_ok_elim hb
    have hanchor : anchor2 = anchor := by
      rw [ha] at ha2
      exact (Except.ok.injEq _ _ ▸ ha2.symm)
    subst hanchor
    have hcnt := runEvents_count evts ⟨[], []⟩ ⟨built, stack⟩ hr sinv_initial
    have hzero : countOpenEnds ([] : List TaskNode) = 0 := rfl
    have hpos : 0 < countOpenEnds built := by
      simp only [hzero] at hcnt
      omega
    obtain ⟨t, htmem, htnone⟩ := List.countP_pos_iff.mp hpos
    obtain ⟨i, hi, hieq⟩ := List.mem_iff_getElem.mp htmem
    have hiEnd : built[i].endTime = none := by
      rw [hieq]
      exact Option.isNone_iff_eq_none.mp htnone
    have hi1 : i < (computeSelfTimesPass built).length := by
      rw [length_computeSelfTimesPass]; exact hi
    have hi2 : i < (computeURLsPass (computeSelfTimesPass built)).length := by
      rw [length_computeURLsPass]; exact hi1
    have hi3 : i < (computeGroupsPass (computeURLsPass (computeSelfTimesPass built))).length := by
      rw [length_computeGroupsPass]; exact hi2
    have hiN : i < (normalizeTimes
        (computeGroupsPass (computeURLsPass (computeSelfTimesPass built)))).length := by
      rw [length_normalizeTimes]; exact hi3
    have hselfNone : (normalizeTimes
        (computeGroupsPass (computeURLsPass (computeSelfTimesPass built))))[i].selfTime
        = none := by
      rw [getElem_normalizeTimes _ i hiN hi3, getElem_computeGroupsPass _ i hi3 hi2,
        getElem_computeURLsPass _ i hi2 hi1, getElem_computeSelfTimesPass built i hi1 hi]
      show ((qSub (nodeDuration built[i]) (childTime built built[i])).map (· / 1000)) = none
      rw [nodeDuration, hiEnd]
      rw [show qSub none (some built[i].startTime) = none from rfl, qSub_none_left]
      rfl
    unfold getMainThreadTasks
    rw [hb]
    show checkTiming (normalizeTimes
      (computeGroupsPass (computeURLsPass (computeSelfTimesPass built)))) = _
    unfold checkTiming
    rw [if_neg]
    intro hAll
    have := List.all_eq_true.mp hAll _ (List.getElem_mem hiN)
    rw [hselfNone] at this
    simp at this
  refine ⟨?_, hmain⟩
  cases hb : _createTasksFromEvents evts with
  | error err => exact ⟨err, getMainThreadTasks_error_of_build hb⟩
  | ok built => exact ⟨.invalidTiming, hmain built hb⟩

unseal Rat.add Rat.sub Rat.mul Rat.inv in
/-- C10 witness: a lone Begin event is never closed; the analysis fails with
the invalid-timing error. -/
theorem unclosed_begin_error_witness :
    ((∃ err, getMainThreadTasks unclosedBeginEvents = .error err) ∧
      ∀ built, _createTasksFromEvents unclosedBeginEvents = .ok built →
        getMainThreadTasks unclosedBeginEvents = .error .invalidTiming) ∧
    getMainThreadTasks unclosedBeginEvents = .error .invalidTiming :=
  ⟨@unclosed_begin_error unclosedBeginEvents
      ⟨"I", "TracingStartedInPage", 1000000, none, 1, 2, noArgs⟩
      (by decide) (by decide),
    by decide⟩
